import Mathlib

/-!
Verification development for the windborne-firecross track-reconstruction and
geospatial-proximity engine.

The embedding follows the TypeScript sources:
  * `src/app/lib/safe-json.ts`   — `safeParseJSON` (multi-stage payload recovery)
  * `src/app/lib/geo.ts`         — `dedupeAndSort` (and `haversineKm`, see below)
  * `src/app/api/balloons/route.ts` — `extractHourPoints`, `linkTracks`, `GET`
  * `app/api/insights/route.ts`  — the per-track proximity statistic
  * `src/app/page.tsx`           — `splitByDatelineAndHops`

Modelling conventions:
  * JavaScript numbers are modelled as exact rationals `ℚ` (timestamps, which the
    source always produces via `Math.floor`/`Math.round`, as integers `ℤ`).
    A JavaScript expression whose value may be non-finite (`NaN`/`±Infinity`)
    is modelled as `Option ℚ`, `none` standing for a non-finite value; the
    source only ever consumes such values through `isFinite` guards, which
    `Option.isSome` mirrors.
  * `haversineKm` is a transcendental floating-point function; it is modelled
    as an abstract distance parameter `dist : ℚ × ℚ → ℚ × ℚ → ℚ` applied to
    `(lat, lon)` pairs.  Every theorem about code that calls `haversineKm`
    quantifies over `dist`, with hypotheses recording the distances that the
    scenario under consideration pins down.
  * `JSON.parse` and `Number(·)` are JavaScript builtins; they are modelled by
    executable parsers covering the JSON grammar (numbers as exact rationals)
    and decimal numeric literals respectively.
-/

mutual
/-- A parsed JSON-like value (the result type of the modelled `JSON.parse`).
Objects are association lists in insertion order; the parser overwrites the
value in place on duplicate keys, as `JSON.parse` does.  Arrays and objects
carry their children through the mutual list types `JsonList`/`JsonProps`,
which keeps every recursion over the tree structural. -/
inductive Json where
  | null : Json
  | bool : Bool → Json
  | num : ℚ → Json
  | str : String → Json
  | arr : JsonList → Json
  | obj : JsonProps → Json

/-- A list of JSON values (the children of an array). -/
inductive JsonList where
  | nil : JsonList
  | cons : Json → JsonList → JsonList

/-- An association list of JSON object fields, in insertion order. -/
inductive JsonProps where
  | nil : JsonProps
  | cons : String → Json → JsonProps → JsonProps
end

deriving instance DecidableEq for Json, JsonList, JsonProps

/-- Build a `JsonList` from a `List Json`. -/
def JsonList.ofList : List Json → JsonList
  | [] => .nil
  | x :: r => .cons x (JsonList.ofList r)

/-- The `List Json` of a `JsonList`. -/
def JsonList.toList : JsonList → List Json
  | .nil => []
  | .cons x r => x :: JsonList.toList r

/-- Build a `JsonProps` from an association list. -/
def JsonProps.ofList : List (String × Json) → JsonProps
  | [] => .nil
  | (k, v) :: r => .cons k v (JsonProps.ofList r)

/-- The association list of a `JsonProps`. -/
def JsonProps.toList : JsonProps → List (String × Json)
  | .nil => []
  | .cons k v r => (k, v) :: JsonProps.toList r

/-- A JSON array from a plain list (notation convenience). -/
def jarr (l : List Json) : Json := Json.arr (JsonList.ofList l)

/-- A JSON object from a plain association list (notation convenience). -/
def jobj (l : List (String × Json)) : Json := Json.obj (JsonProps.ofList l)

/-- The `\x7b` character (opening curly brace). -/
def lbrace : Char := Char.ofNat 123

/-- The `\x7d` character (closing curly brace). -/
def rbrace : Char := Char.ofNat 125

/-- Whitespace as skipped by `JSON.parse` (space, tab, newline, carriage return). -/
def isJsonWs (c : Char) : Bool :=
  c = ' ' || c = '\t' || c = '\n' || c = '\r'

/-- Drop leading JSON whitespace. -/
def skipWs : List Char → List Char
  | [] => []
  | c :: rest => if isJsonWs c then skipWs rest else c :: rest

def isDigitChar (c : Char) : Bool := '0' ≤ c ∧ c ≤ '9'

/-- Split a character list into a maximal leading run of decimal digits and the rest. -/
def takeDigits : List Char → List Char × List Char
  | [] => ([], [])
  | c :: rest =>
    if isDigitChar c then
      let (ds, r) := takeDigits rest
      (c :: ds, r)
    else ([], c :: rest)

/-- Numeric value of a digit run (most significant first). -/
def digitsToNat (ds : List Char) : ℕ :=
  ds.foldl (fun acc c => acc * 10 + (c.toNat - '0'.toNat)) 0

/-- Parse an optional exponent part `e|E [+|-] d+`; returns the (signed)
decimal exponent and the remaining input, or `none` when no exponent follows
(the input is then left untouched by the caller). -/
def parseExp (cs : List Char) : Option (ℤ × List Char) :=
  match cs with
  | c :: rest =>
    if c = 'e' || c = 'E' then
      match rest with
      | '+' :: r2 =>
        let (ds, r3) := takeDigits r2
        if ds.isEmpty then none else some ((digitsToNat ds : ℤ), r3)
      | '-' :: r2 =>
        let (ds, r3) := takeDigits r2
        if ds.isEmpty then none else some (-(digitsToNat ds : ℤ), r3)
      | _ =>
        let (ds, r3) := takeDigits rest
        if ds.isEmpty then none else some ((digitsToNat ds : ℤ), r3)
    else none
  | [] => none

/-- The rational `mant / den * 10 ^ e`, assembled with integer arithmetic and
a single `Rat.divInt` (Batteries marks the field operations on `ℚ`
irreducible; this keeps the parsers kernel-reducible). -/
def decValue (mant : ℤ) (den : ℤ) (e : ℤ) : ℚ :=
  if e ≥ 0 then Rat.divInt (mant * ((10 ^ e.toNat : ℕ) : ℤ)) den
  else Rat.divInt mant (den * ((10 ^ (-e).toNat : ℕ) : ℤ))

/-- Parse a JSON number (grammar: `-? int frac? exp?`, `int` being `0` or a
digit run without a leading zero, `frac` a nonempty digit run); yields its
exact rational value. -/
def parseJsonNumber (cs : List Char) : Option (ℚ × List Char) :=
  let (neg, cs1) :=
    match cs with
    | '-' :: rest => (true, rest)
    | _ => (false, cs)
  let (ds, cs2) := takeDigits cs1
  if ds.isEmpty then none
  else if ds.length > 1 ∧ ds.headD '0' = '0' then none
  else
    let finish (mant : ℤ) (den : ℤ) (r : List Char) : ℚ × List Char :=
      match parseExp r with
      | some (e, r2) => (decValue mant den e, r2)
      | none => (Rat.divInt mant den, r)
    match cs2 with
    | '.' :: r2 =>
      let (fs, r3) := takeDigits r2
      if fs.isEmpty then none
      else
        let mant : ℤ := ((digitsToNat ds * 10 ^ fs.length + digitsToNat fs : ℕ) : ℤ)
        let (v, cs4) := finish mant ((10 ^ fs.length : ℕ) : ℤ) r3
        some (if neg then -v else v, cs4)
    | _ =>
      let (v, cs4) := finish ((digitsToNat ds : ℕ) : ℤ) 1 cs2
      some (if neg then -v else v, cs4)

/-- Parse the body of a JSON string (after the opening quote), handling the
standard escape sequences; returns the decoded characters and the input after
the closing quote. -/
def parseStringBody : ℕ → List Char → Option (List Char × List Char)
  | 0, _ => none
  | _ + 1, [] => none
  | fuel + 1, c :: rest =>
    if c = '"' then some ([], rest)
    else if c = '\\' then
      match rest with
      | [] => none
      | e :: r2 =>
        let dec : Option Char :=
          if e = '"' then some '"'
          else if e = '\\' then some '\\'
          else if e = '/' then some '/'
          else if e = 'b' then some (Char.ofNat 8)
          else if e = 'f' then some (Char.ofNat 12)
          else if e = 'n' then some '\n'
          else if e = 'r' then some '\r'
          else if e = 't' then some '\t'
          else none
        match dec with
        | some d =>
          match parseStringBody fuel r2 with
          | some (body, r3) => some (d :: body, r3)
          | none => none
        | none => none
    else
      match parseStringBody fuel rest with
      | some (body, r3) => some (c :: body, r3)
      | none => none

/-- Mode of the JSON parsing loop: parsing one value, the elements of an
array (accumulated so far), or the fields of an object (accumulated so far). -/
inductive PMode where
  | val : PMode
  | arrElems : List Json → PMode
  | objFields : List (String × Json) → PMode

/-- Fuel-indexed model of `JSON.parse`.  In mode `val` it parses one value:
leading whitespace, then `null`, `true`, `false`, a string, a number, an array
or an object; modes `arrElems`/`objFields` parse the remaining elements of a
nonempty array / fields of a nonempty object.  A duplicate object key
overwrites the earlier value in place, as `JSON.parse` does. -/
def parseGo : ℕ → PMode → List Char → Option (Json × List Char)
  | 0, _, _ => none
  | fuel + 1, .val, cs =>
    match skipWs cs with
    | [] => none
    | c :: rest =>
      if c = 'n' then
        match rest with
        | 'u' :: 'l' :: 'l' :: r => some (Json.null, r)
        | _ => none
      else if c = 't' then
        match rest with
        | 'r' :: 'u' :: 'e' :: r => some (Json.bool true, r)
        | _ => none
      else if c = 'f' then
        match rest with
        | 'a' :: 'l' :: 's' :: 'e' :: r => some (Json.bool false, r)
        | _ => none
      else if c = '"' then
        match parseStringBody (rest.length + 1) rest with
        | some (body, r) => some (Json.str (String.mk body), r)
        | none => none
      else if c = '[' then
        match skipWs rest with
        | ']' :: r => some (jarr [], r)
        | other => parseGo fuel (.arrElems []) other
      else if c = lbrace then
        match skipWs rest with
        | d :: r => if d = rbrace then some (jobj [], r) else parseGo fuel (.objFields []) (d :: r)
        | [] => none
      else
        match parseJsonNumber (c :: rest) with
        | some (q, r) => some (Json.num q, r)
        | none => none
  | fuel + 1, .arrElems acc, cs =>
    match parseGo fuel .val cs with
    | none => none
    | some (v, rest) =>
      match skipWs rest with
      | ',' :: r2 => parseGo fuel (.arrElems (acc ++ [v])) r2
      | ']' :: r2 => some (jarr (acc ++ [v]), r2)
      | _ => none
  | fuel + 1, .objFields acc, cs =>
    match skipWs cs with
    | '"' :: rest =>
      match parseStringBody (rest.length + 1) rest with
      | none => none
      | some (keyChars, r2) =>
        let key := String.mk keyChars
        match skipWs r2 with
        | ':' :: r3 =>
          match parseGo fuel .val r3 with
          | none => none
          | some (v, r4) =>
            let acc' :=
              if acc.any (fun kv => kv.1 = key) then
                acc.map (fun kv => if kv.1 = key then (key, v) else kv)
              else acc ++ [(key, v)]
            match skipWs r4 with
            | ',' :: r5 => parseGo fuel (.objFields acc') r5
            | d :: r5 => if d = rbrace then some (jobj acc', r5) else none
            | [] => none
        | _ => none
    | _ => none

/-- Model of `JSON.parse(text)`: parse one value and require that only
whitespace remains (`JSON.parse` rejects trailing content).  The fuel
`2 * length + 8` exceeds the recursion depth on any input (each recursive
call consumes input or descends past a bracket). -/
def jsonParse (s : String) : Option Json :=
  let cs := s.data
  match parseGo (2 * cs.length + 8) .val cs with
  | some (v, rest) => if (skipWs rest).isEmpty then some v else none
  | none => none

/-- The byte-order-mark character stripped by `safeParseJSON`. -/
def bomChar : Char := Char.ofNat 0xFEFF

/-- The apostrophe character (single quote). -/
def squote : Char := Char.ofNat 39

/-- Whitespace in the sense of the regex class `\s` (space, tab, newline,
carriage return, vertical tab, form feed). -/
def isReWs (c : Char) : Bool :=
  c = ' ' || c = '\t' || c = '\n' || c = '\r' || c = Char.ofNat 11 || c = Char.ofNat 12

/-- Drop leading `\s` characters. -/
def skipReWs : List Char → List Char
  | [] => []
  | c :: rest => if isReWs c then skipReWs rest else c :: rest

/-- One character of text.replace(`^﻿`, ""): strip a leading byte-order mark. -/
def stripBOM : List Char → List Char
  | [] => []
  | c :: rest => if c = bomChar then rest else c :: rest

/-- Model of text.replace(`,\s*([}\])` + `]`, "$1"): each comma followed by
optional whitespace and a closing brace/bracket is removed, the bracket kept.
Scanning resumes after the bracket, as a global regex replace does. -/
def replTrailingCommas : ℕ → List Char → List Char
  | 0, cs => cs
  | _ + 1, [] => []
  | fuel + 1, c :: rest =>
    if c = ',' then
      match skipReWs rest with
      | b :: r2 =>
        if b = rbrace || b = ']' then b :: replTrailingCommas fuel r2
        else ',' :: replTrailingCommas fuel rest
      | [] => ',' :: replTrailingCommas fuel rest
    else c :: replTrailingCommas fuel rest

/-- Case-insensitive match of a fixed token; returns the input after it. -/
def matchTokenCI : List Char → List Char → Option (List Char)
  | [], cs => some cs
  | _ :: _, [] => none
  | t :: ts, c :: cs => if t.toLower = c.toLower then matchTokenCI ts cs else none

/-- Model of text.replace(`:\s*TOKEN`/gi, ": null"): a colon followed by
optional whitespace and the token (case-insensitively) becomes `: null`. -/
def replColonToken (tok : List Char) : ℕ → List Char → List Char
  | 0, cs => cs
  | _ + 1, [] => []
  | fuel + 1, c :: rest =>
    if c = ':' then
      match matchTokenCI tok (skipReWs rest) with
      | some r2 => ':' :: ' ' :: 'n' :: 'u' :: 'l' :: 'l' :: replColonToken tok fuel r2
      | none => ':' :: replColonToken tok fuel rest
    else c :: replColonToken tok fuel rest

/-- Scan for the next single quote; returns the characters before it and the
input after it (`[^']*'`). -/
def splitAtQuote : List Char → Option (List Char × List Char)
  | [] => none
  | c :: rest =>
    if c = squote then some ([], rest)
    else
      match splitAtQuote rest with
      | some (pre, post) => some (c :: pre, post)
      | none => none

/-- Model of text.replace(`:\s*'([^']*)'`, `: "$1"`): simple single-quoted
values become double-quoted. -/
def replSingleQuoted : ℕ → List Char → List Char
  | 0, cs => cs
  | _ + 1, [] => []
  | fuel + 1, c :: rest =>
    if c = ':' then
      match skipReWs rest with
      | q :: r2 =>
        if q = squote then
          match splitAtQuote r2 with
          | some (content, r3) =>
            ':' :: ' ' :: '"' :: (content ++ '"' :: replSingleQuoted fuel r3)
          | none => ':' :: replSingleQuoted fuel rest
        else ':' :: replSingleQuoted fuel rest
      | [] => ':' :: replSingleQuoted fuel rest
    else c :: replSingleQuoted fuel rest

/-- The "light repair" stage of `safeParseJSON`: remove trailing commas,
replace `NaN`/`Infinity`/`-Infinity` values by null, convert simple
single-quoted string values to double-quoted, in the source's order. -/
def cleanupChars (cs : List Char) : List Char :=
  let c1 := replTrailingCommas cs.length cs
  let c2 := replColonToken ['N', 'a', 'N'] c1.length c1
  let c3 := replColonToken ['I', 'n', 'f', 'i', 'n', 'i', 't', 'y'] c2.length c2
  let c4 := replColonToken ['-', 'I', 'n', 'f', 'i', 'n', 'i', 't', 'y'] c3.length c3
  replSingleQuoted c4.length c4

/-- Split on newline characters (the separators of `split(/\r?\n/)`); a
carriage return immediately before the newline belongs to the separator. -/
def splitNl : List Char → List (List Char)
  | [] => [[]]
  | c :: rest =>
    if c = '\n' then [] :: splitNl rest
    else
      match splitNl rest with
      | l :: ls => (c :: l) :: ls
      | [] => [[c]]

/-- Drop a single carriage return at the end of a split piece (`/\r?\n/`). -/
def dropTrailingCR (l : List Char) : List Char :=
  match l.reverse with
  | '\r' :: rest => rest.reverse
  | _ => l

/-- Whitespace in the sense of `String.prototype.trim` (modelled on the
characters that occur in this code path: space, tab, newline, carriage
return, vertical tab, form feed, no-break space, BOM). -/
def isTrimWs (c : Char) : Bool :=
  isReWs c || c = Char.ofNat 160 || c = bomChar

/-- Model of `String.prototype.trim`. -/
def jsTrim (l : List Char) : List Char :=
  ((l.dropWhile isTrimWs).reverse.dropWhile isTrimWs).reverse

/-- The JSONL-stage line list: split the repaired text on line breaks, trim
each piece, and keep the nonempty pieces whose first character is `\x7b` or
`[` (the source tests `/[\x7b\[]/` against `l[0]`). -/
def jsonlLines (cs : List Char) : List (List Char) :=
  ((splitNl cs).map (fun l => jsTrim (dropTrailingCR l))).filter fun l =>
    match l with
    | c :: _ => c = lbrace || c = '['
    | [] => false

/-- Stage 4 of `safeParseJSON`: extract the first substring that starts at the
first `\x7b`/`[` and ends at the last `\x7d`/`]`, and parse it (the regex
`([\[\x7b][\s\S]*[\]\x7d])`). -/
def extractBlock (cs : List Char) : Option Json :=
  let rest := cs.dropWhile fun c => !(c = lbrace || c = '[')
  match rest with
  | [] => none
  | _ =>
    let r := rest.reverse.dropWhile fun c => !(c = rbrace || c = ']')
    match r with
    | [] => none
    | _ => jsonParse (String.mk r.reverse)

/-- Model of `safeParseJSON` (src/app/lib/safe-json.ts): strip a BOM and try a
straight parse; apply the light repair and re-parse; treat the repaired text
as newline-delimited JSON, collecting every line that parses; finally extract
the first braced/bracketed block.  Returns `none` when every stage fails. -/
def safeParseJSON (text : String) : Option Json :=
  let clean0 := stripBOM text.data
  match jsonParse (String.mk clean0) with
  | some v => some v
  | none =>
    let cleaned := cleanupChars clean0
    match jsonParse (String.mk cleaned) with
    | some v => some v
    | none =>
      let lines := jsonlLines cleaned
      let viaJsonl : Option Json :=
        if lines.isEmpty then none
        else
          let arr := lines.filterMap fun l => jsonParse (String.mk l)
          if arr.isEmpty then none else some (jarr arr)
      match viaJsonl with
      | some v => some v
      | none => extractBlock cleaned

/-- The characters of `Infinity`. -/
def infChars : List Char := ['I', 'n', 'f', 'i', 'n', 'i', 't', 'y']

/-- Parse an unsigned JavaScript decimal literal (`digits`, `digits.digits?`,
`.digits`, each with an optional exponent), requiring the whole input to be
consumed; `none` otherwise. -/
def parseDecCore (cs : List Char) : Option ℚ :=
  let finish (mant : ℤ) (den : ℤ) (r : List Char) : Option ℚ :=
    match r with
    | [] => some (Rat.divInt mant den)
    | _ =>
      match parseExp r with
      | some (e, []) => some (decValue mant den e)
      | _ => none
  let (ip, r1) := takeDigits cs
  match ip, r1 with
  | [], '.' :: r2 =>
    let (ds, r3) := takeDigits r2
    if ds.isEmpty then none
    else finish ((digitsToNat ds : ℕ) : ℤ) ((10 ^ ds.length : ℕ) : ℤ) r3
  | [], _ => none
  | _, '.' :: r2 =>
    let (ds, r3) := takeDigits r2
    finish ((digitsToNat ip * 10 ^ ds.length + digitsToNat ds : ℕ) : ℤ) ((10 ^ ds.length : ℕ) : ℤ) r3
  | _, _ => finish ((digitsToNat ip : ℕ) : ℤ) 1 r1

/-- Model of the JavaScript `Number(string)` coercion: trimmed empty string is
`0`; otherwise an optionally signed decimal literal.  `none` stands for a
non-finite result — both `NaN` (unparseable text) and `±Infinity` (the
`Infinity` literal); the source only consumes these values through `isFinite`
guards, which treat the two alike.  Hexadecimal/octal/binary literals are not
modelled and also map to `none`. -/
def strToNum (s : String) : Option ℚ :=
  let t := jsTrim s.data
  match t with
  | [] => some 0
  | '+' :: r => if r = infChars then none else parseDecCore r
  | '-' :: r => if r = infChars then none else (parseDecCore r).map Neg.neg
  | _ => if t = infChars then none else parseDecCore t

/-- Model of the JavaScript `Number(x)` coercion on parsed JSON values;
`none` stands for a non-finite result.  A singleton array coerces through its
element (`Number([x]) = Number(String(x))`, modelled one level deep); longer
arrays and objects stringify to non-numeric text, hence `NaN`. -/
def jsNumber : Json → Option ℚ
  | .null => some 0
  | .bool b => some (if b then 1 else 0)
  | .num q => some q
  | .str s => strToNum s
  | .arr .nil => some 0
  | .arr (.cons (.num q) .nil) => some q
  | .arr (.cons .null .nil) => some 0
  | .arr _ => none
  | .obj _ => none

/-- Model of `Math.round`: round half up.  Here `⌊q + 1/2⌋` is written with integer
arithmetic: for `q = n/d` this is `⌊(2n + d) / 2d⌋`. -/
def jsRound (q : ℚ) : ℤ := Int.fdiv (2 * q.num + (q.den : ℤ)) (2 * (q.den : ℤ))

/-- The numeric part of `toEpochSeconds`: values above `1e11` are treated as
milliseconds. -/
def epochFromNum (q : ℚ) : ℤ :=
  if q > 100000000000 then jsRound (Rat.divInt q.num ((q.den : ℤ) * 1000)) else jsRound q

/-- Model of `toEpochSeconds` (route.ts): numbers directly, strings first as
numeric text.  Calendar date/time text goes through `Date.parse`, an external
builtin modelled here as unparseable, and a string coercing to `±Infinity`
(in JavaScript an infinite timestamp, which `dedupeAndSort` later discards)
is likewise mapped to `none`; no claim depends on either corner. -/
def toEpochSeconds : Json → Option ℤ
  | .num q => some (epochFromNum q)
  | .str s =>
    match strToNum s with
    | some n => some (epochFromNum n)
    | none => none
  | _ => none

deriving instance DecidableEq for Except

/-- An extracted observation: `Omit<TrackPoint, "id">` in the source. -/
structure Obs where
  ts : ℤ
  lat : ℚ
  lon : ℚ
  alt : Option ℚ := none
deriving DecidableEq, Repr

/-- Model of `toEpochSecondsFromHourIdx`, with `now` standing for
`Math.floor(Date.now() / 1000)` (the clock is an input of the model). -/
def toEpochSecondsFromHourIdx (now : ℤ) (hourIdx : ℕ) : ℤ :=
  now - hourIdx * 3600

/-- JavaScript property access on a parsed object (first binding; the parser
keeps keys unique). `none` is `undefined`. -/
def getProp (kvs : List (String × Json)) (k : String) : Option Json :=
  (kvs.find? fun kv => kv.1 = k).map (·.2)

/-- A chain `obj.k1 ?? obj.k2 ?? …`: the first key whose value is neither
absent nor null. -/
def firstProp (kvs : List (String × Json)) (keys : List String) : Option Json :=
  keys.findSome? fun k =>
    match getProp kvs k with
    | some Json.null => none
    | some v => some v
    | none => none

/-- The test `typeof x === "object"` on parsed JSON values (true for null, arrays and
objects). -/
def jsTypeofObject : Json → Bool
  | .null => true
  | .arr _ => true
  | .obj _ => true
  | _ => false

/-- Case A of `extractHourPoints`: one row `[lat, lon, alt?]`.  Rows that are
not arrays of length ≥ 2, or whose coordinates do not coerce to finite
numbers, are dropped. -/
def caseARow (ts : ℤ) (row : Json) : Option Obs :=
  match row with
  | .arr l =>
    let elems := l.toList
    if elems.length ≥ 2 then
      match jsNumber (elems.getD 0 Json.null), jsNumber (elems.getD 1 Json.null) with
      | some la, some lo =>
        some ⟨ts, la, lo, if elems.length ≥ 3 then jsNumber (elems.getD 2 Json.null) else none⟩
      | _, _ => none
    else none
  | _ => none

def caseBLatKeys : List String := ["lat", "latitude", "y", "Lat", "Y"]
def caseBLonKeys : List String := ["lon", "lng", "longitude", "x", "Lon", "X"]
def altKeys : List String := ["alt", "altitude", "Alt"]

/-- Case B of `extractHourPoints`: one key-value record.  Records missing
both coordinate keys (or holding null there), or whose coordinates do not
coerce to finite numbers, are dropped; non-object elements have no
properties and are likewise dropped. -/
def caseBRecord (ts : ℤ) (x : Json) : Option Obs :=
  match x with
  | .obj props =>
    let kvs := props.toList
    match firstProp kvs caseBLatKeys, firstProp kvs caseBLonKeys with
    | some lv, some ov =>
      match jsNumber lv, jsNumber ov with
      | some la, some lo => some ⟨ts, la, lo, (firstProp kvs altKeys).bind jsNumber⟩
      | _, _ => none
    | _, _ => none
  | _ => none

/-- The Case B loop.  A null element makes `obj.lat` throw a TypeError, which
aborts the whole extraction (`GET` then maps the hour to `[]`); the error is
modelled by `Except.error`. -/
def caseB (ts : ℤ) : List Json → Except Unit (List Obs)
  | [] => .ok []
  | Json.null :: _ => .error ()
  | x :: rest =>
    match caseB ts rest with
    | .ok l => .ok ((caseBRecord ts x).toList ++ l)
    | .error e => .error e

def caseCLatKeys : List String := ["lat", "latitude", "Lat", "y", "Y"]
def caseCLonKeys : List String := ["lon", "lng", "long", "longitude", "Lon", "x", "X"]
def tsKeys : List String := ["ts", "time", "timestamp", "t", "epoch", "updated_at", "date"]

/-- Model of `pushIfValid` of Case C: the same key lookup as Case B (with Case C's own
key lists), additionally honouring a timestamp key, falling back to the
hour-derived default when absent or unparseable. -/
def pushIfValid (dflt : ℤ) (kvs : List (String × Json)) : Option Obs :=
  let t := ((firstProp kvs tsKeys).bind toEpochSeconds).getD dflt
  match firstProp kvs caseCLatKeys, firstProp kvs caseCLonKeys with
  | some lv, some ov =>
    match jsNumber lv, jsNumber ov with
    | some la, some lo => some ⟨t, la, lo, (firstProp kvs altKeys).bind jsNumber⟩
    | _, _ => none
  | _, _ => none

mutual
/-- The Case C recursive walk: arrays element-wise, non-null objects
contribute `pushIfValid` and then their values depth-first. -/
def walkJ (dflt : ℤ) : Json → List Obs
  | .arr l => walkL dflt l
  | .obj props => (pushIfValid dflt props.toList).toList ++ walkProps dflt props
  | _ => []

/-- The Case C walk over the elements of an array. -/
def walkL (dflt : ℤ) : JsonList → List Obs
  | .nil => []
  | .cons j r => walkJ dflt j ++ walkL dflt r

/-- The Case C walk over the values of an object (`Object.values`,
in insertion order). -/
def walkProps (dflt : ℤ) : JsonProps → List Obs
  | .nil => []
  | .cons _ v r => walkJ dflt v ++ walkProps dflt r
end

/-- Model of `extractHourPoints` (route.ts): Case A for a nonempty array whose
first element is an array, Case B for a nonempty array whose first element has
`typeof` "object" (including null, which throws — `Except.error`), and
otherwise the Case C recursive walk over the whole payload. -/
def extractHourPoints (now : ℤ) (payload : Json) (hourIdx : ℕ) : Except Unit (List Obs) :=
  let ts := toEpochSecondsFromHourIdx now hourIdx
  match payload with
  | .arr (.cons r0 rest) =>
    match r0 with
    | .arr _ => .ok ((r0 :: rest.toList).filterMap (caseARow ts))
    | _ =>
      if jsTypeofObject r0 then caseB ts (r0 :: rest.toList)
      else .ok (walkJ ts payload)
  | _ => .ok (walkJ ts payload)

/-- A track point (geo.ts `TrackPoint`): an observation plus the owning
track's id. -/
structure TrackPoint where
  id : String
  ts : ℤ
  lat : ℚ
  lon : ℚ
  alt : Option ℚ := none
deriving DecidableEq, Repr

/-- A track (geo.ts `Track`). -/
structure Track where
  id : String
  points : List TrackPoint
deriving DecidableEq, Repr

/-- Model of `q.toFixed(5)` as an integer number of 1e-5 units: round half away from
zero at the fifth decimal. -/
def toFixed5 (q : ℚ) : ℤ :=
  if q ≥ 0 then jsRound (Rat.divInt (q.num * 100000) (q.den : ℤ))
  else -(jsRound (Rat.divInt (-q.num * 100000) (q.den : ℤ)))

/-- The dedupe key of `dedupeAndSort`: the source builds the string
`id|ts|lat.toFixed(5)|lon.toFixed(5)`; the tuple of the four components is an
equivalent key. -/
def pointKey (p : TrackPoint) : String × ℤ × ℤ × ℤ :=
  (p.id, p.ts, toFixed5 p.lat, toFixed5 p.lon)

/-- The dedupe pass of `dedupeAndSort`: keep the first point for each key.
The source additionally requires `isFinite` of `lat`/`lon`/`ts`, which holds
identically in this exact-arithmetic embedding. -/
def dedupeGo : List TrackPoint → List (String × ℤ × ℤ × ℤ) → List TrackPoint
  | [], _ => []
  | p :: rest, seen =>
    if pointKey p ∈ seen then dedupeGo rest seen
    else p :: dedupeGo rest (pointKey p :: seen)

/-- Stable insertion of a point into a list sorted by ascending `ts`: the new
point goes after existing points with equal `ts`. -/
def insertByTs (p : TrackPoint) : List TrackPoint → List TrackPoint
  | [] => [p]
  | q :: rest => if q.ts ≤ p.ts then q :: insertByTs p rest else p :: q :: rest

/-- Stable sort by ascending `ts`, modelling the source's
`sort((a, b) => a.ts - b.ts)` (JavaScript `Array.prototype.sort` is stable). -/
def sortByTs (l : List TrackPoint) : List TrackPoint := l.foldr insertByTs []

/-- Model of `dedupeAndSort` (geo.ts). -/
def dedupeAndSort (points : List TrackPoint) : List TrackPoint :=
  sortByTs (dedupeGo points [])

/-- The type of the abstract great-circle distance function standing for
`haversineKm` (geo.ts): it consumes two `(lat, lon)` pairs.  `haversineKm`
computes `2 R asin(sqrt x)` with transcendental floating-point arithmetic and
is therefore left abstract; theorems quantify over it. -/
abbrev DistFn := ℚ × ℚ → ℚ × ℚ → ℚ

/-- The constant `MAX_LINK_KM_PER_H` (route.ts): the velocity cap. -/
def MAX_LINK_KM_PER_H : ℚ := 200

/-- The allowed link distance `MAX_LINK_KM_PER_H * (dt / 3600)` of
`linkTracks`, written with integer arithmetic (`200 * dt / 3600`). -/
def allowedKm (dt : ℤ) : ℚ := Rat.divInt (200 * dt) 3600

/-- Build a `TrackPoint` from an observation plus the owning track's id
(`{ ...p, id }` in the source). -/
def obsToPoint (id : String) (p : Obs) : TrackPoint :=
  ⟨id, p.ts, p.lat, p.lon, p.alt⟩

/-- The time/velocity gates of the `linkTracks` inner loop against one last
point: `none` when `dt = p.ts - last.ts` falls outside `[1800, 5400]` seconds
or the distance exceeds `allowedKm dt`; otherwise the distance. -/
def candGate (dist : DistFn) (p : Obs) (last : TrackPoint) : Option ℚ :=
  if p.ts - last.ts < 1800 ∨ p.ts - last.ts > 5400 then none
  else if dist ((last.lat, last.lon)) ((p.lat, p.lon)) > allowedKm (p.ts - last.ts) then none
  else some (dist ((last.lat, last.lon)) ((p.lat, p.lon)))

/-- One candidate test of the `linkTracks` inner loop: `some km` when the
track is unclaimed this hour and its last point passes both gates; `none`
otherwise.  (A track with no points would make the source compute `NaN`
comparisons that likewise never select it; tracks always carry at least one
point.) -/
def candOk (dist : DistFn) (p : Obs) (used : List String) (tr : Track) : Option ℚ :=
  if tr.id ∈ used then none
  else
    match tr.points.getLast? with
    | none => none
    | some last => candGate dist p last

/-- The `bestIdx` / `bestKm` search of `linkTracks`: scan the open tracks in
order, keeping the first index of strictly smallest candidate distance. -/
def bestGo (dist : DistFn) (p : Obs) (used : List String) :
    List Track → ℕ → Option (ℕ × ℚ) → Option (ℕ × ℚ)
  | [], _, best => best
  | tr :: rest, t, best =>
    match candOk dist p used tr with
    | none => bestGo dist p used rest (t + 1) best
    | some km =>
      match best with
      | none => bestGo dist p used rest (t + 1) (some (t, km))
      | some (bi, bk) =>
        bestGo dist p used rest (t + 1) (if km < bk then (t, km) else (bi, bk))

/-- The index of the selected track for one observation, if any. -/
def bestCandidate (dist : DistFn) (p : Obs) (used : List String) (tracks : List Track) :
    Option ℕ :=
  (bestGo dist p used tracks 0 none).map (·.1)

/-- One observation of the matching loop: append it to the selected track and
mark the track used, or record the observation as leftover. -/
def linkPoint (dist : DistFn) (st : List Track × List String × List Obs) (p : Obs) :
    List Track × List String × List Obs :=
  let (tracks, used, leftover) := st
  match bestCandidate dist p used tracks with
  | some t =>
    let tr := tracks.getD t ⟨"", []⟩
    (tracks.set t ⟨tr.id, tr.points ++ [obsToPoint tr.id p]⟩, tr.id :: used, leftover)
  | none => (tracks, used, leftover ++ [p])

/-- The id `T${n}` of a new track. -/
def trackName (n : ℕ) : String := "T" ++ toString n

/-- Seed one new single-point track per observation, incrementing `nextId`. -/
def seedTracks (st : List Track × ℕ) (pts : List Obs) : List Track × ℕ :=
  pts.foldl
    (fun acc p => (acc.1 ++ [⟨trackName acc.2, [obsToPoint (trackName acc.2) p]⟩], acc.2 + 1))
    st

/-- One hour of `linkTracks`: an empty hour is skipped; the first non-empty
hour seeds every observation; later hours run the matching loop and seed the
leftovers. -/
def linkHour (dist : DistFn) (st : List Track × ℕ) (pts : List Obs) : List Track × ℕ :=
  if pts.isEmpty then st
  else if st.1.isEmpty then seedTracks st pts
  else
    let (tracks2, _, leftover) := pts.foldl (linkPoint dist) (st.1, [], [])
    seedTracks (tracks2, st.2) leftover

/-- Model of `linkTracks` (route.ts): process the hourly lists oldest to
newest (index `hourly.length - 1` down to `0`), then post-process each track
with `dedupeAndSort` and keep only tracks with at least 2 points. -/
def linkTracks (dist : DistFn) (hourly : List (List Obs)) : List Track :=
  (((hourly.reverse.foldl (linkHour dist) ([], 1)).1.map
      fun tr => Track.mk tr.id (dedupeAndSort tr.points)).filter
    fun tr => 2 ≤ tr.points.length)

/-- An event point of the proximity analysis (the insights route reads only
`lat` and `lon` of each fire). -/
structure FirePoint where
  lat : ℚ
  lon : ℚ
deriving DecidableEq, Repr

/-- A per-track proximity statistic (insights route).  `closest_km = none`
models `Infinity` (no pair compared; note `Math.round(Infinity * 10) / 10`
is again `Infinity`), `closest_ts = none` models `undefined`. -/
structure InsightStat where
  id : String
  closest_km : Option ℚ
  near_count : ℕ
  closest_ts : Option ℤ
deriving DecidableEq, Repr

/-- The constant `PROX_KM` (insights route): the near-encounter threshold. -/
def PROX_KM : ℚ := 100

/-- The inner step of the insights scan: one `(point, fire)` pair.  The state
is `(minKm, minWhen, nearCount)`; `minKm = none` is the initial `Infinity`
(every finite distance compares below it). -/
def fireStep (dist : DistFn) (thr : ℚ) (p : TrackPoint)
    (st : Option ℚ × Option ℤ × ℕ) (f : FirePoint) : Option ℚ × Option ℤ × ℕ :=
  let (minKm, minWhen, near) := st
  let km := dist (p.lat, p.lon) (f.lat, f.lon)
  let improved : Bool :=
    match minKm with
    | none => true
    | some m => km < m
  let near2 := if km ≤ thr then near + 1 else near
  if improved then (some km, some p.ts, near2) else (minKm, minWhen, near2)

/-- The double loop of the insights route over one track: points outer,
fires inner. -/
def trackScan (dist : DistFn) (thr : ℚ) (fires : List FirePoint)
    (points : List TrackPoint) : Option ℚ × Option ℤ × ℕ :=
  points.foldl (fun st p => fires.foldl (fireStep dist thr p) st) (none, none, 0)

/-- Model of `Math.round(minKm * 10) / 10`, preserving the `Infinity` sentinel. -/
def round1 : Option ℚ → Option ℚ
  | none => none
  | some q => some (Rat.divInt (jsRound (Rat.divInt (q.num * 10) (q.den : ℤ))) 10)

/-- The per-track statistic of the insights route `GET` (the route maps this
over all tracks with `thr = PROX_KM` and then sorts by `closest_km`; the sort
does not change any per-track statistic). -/
def trackStat (dist : DistFn) (thr : ℚ) (fires : List FirePoint) (t : Track) : InsightStat :=
  let r := trackScan dist thr fires t.points
  ⟨t.id, round1 r.1, r.2.2, r.2.1⟩

/-- A point as consumed by the page's segmenter (`{ ts, lat, lon, alt? }`,
no id). -/
structure PagePoint where
  ts : ℤ
  lat : ℚ
  lon : ℚ
deriving DecidableEq, Repr

/-- Exact subtraction of rationals in kernel-reducible form (`a - b`). -/
def qsub (a b : ℚ) : ℚ :=
  Rat.divInt (a.num * (b.den : ℤ) - b.num * (a.den : ℤ)) ((a.den : ℤ) * (b.den : ℤ))

/-- Close the current polyline segment: segments shorter than 2 points are
dropped. -/
def segFlush (cur : List (ℚ × ℚ)) (segs : List (List (ℚ × ℚ))) : List (List (ℚ × ℚ)) :=
  if 2 ≤ cur.length then segs ++ [cur] else segs

/-- The walk of `splitByDatelineAndHops`: starting a new segment whenever
consecutive points' longitude difference exceeds 180° in magnitude or their
distance exceeds the hop cap. -/
def segGo (dist : DistFn) (maxHopKm : ℚ) :
    PagePoint → List PagePoint → List (ℚ × ℚ) → List (List (ℚ × ℚ)) → List (List (ℚ × ℚ))
  | _, [], cur, segs => segFlush cur segs
  | a, b :: rest, cur, segs =>
    let crossesDateline := |qsub b.lon a.lon| > 180
    let hopKm := dist (a.lat, a.lon) (b.lat, b.lon)
    let bigHop := hopKm > maxHopKm
    if crossesDateline ∨ bigHop then
      segGo dist maxHopKm b rest [(b.lat, b.lon)] (segFlush cur segs)
    else
      segGo dist maxHopKm b rest (cur ++ [(b.lat, b.lon)]) segs

/-- Model of `splitByDatelineAndHops` (page.tsx): filter to points at or
after the cutoff, return no segments for fewer than 2 survivors, otherwise
walk them in order (the page calls this with `maxHopKm = 800`; the function's
own default is 1000). -/
def splitByDatelineAndHops (dist : DistFn) (pts : List PagePoint) (cutoffTs : ℤ)
    (maxHopKm : ℚ) : List (List (ℚ × ℚ)) :=
  match pts.filter fun p => cutoffTs ≤ p.ts with
  | [] => []
  | [_] => []
  | a :: rest => segGo dist maxHopKm a rest [(a.lat, a.lon)] []

/-- The JavaScript truthiness test applied to a parsed payload
(`r.status === "fulfilled" && r.value`). -/
def jsTruthy : Json → Bool
  | .null => false
  | .bool b => b
  | .num q => q ≠ 0
  | .str s => s ≠ ""
  | .arr _ => true
  | .obj _ => true

/-- One hour of the balloons `GET`: the fetch-and-parse outcome of the hour
(`none` models any fetch failure — timeout, non-success status — as well as a
payload every parse stage rejected, both of which `.catch`/the truthiness
test turn into an empty hour), extraction errors caught to `[]`. -/
def hourPointsOfOutcome (now : ℤ) (o : Option String) (idx : ℕ) : List Obs :=
  match o with
  | none => []
  | some txt =>
    match safeParseJSON txt with
    | none => []
    | some payload =>
      if jsTruthy payload then
        match extractHourPoints now payload idx with
        | .ok l => l
        | .error _ => []
      else []

/-- The `results.forEach((r, idx) => …)` loop of the balloons `GET`: each
outcome is turned into that hour's observation list independently. -/
def reconstructHourlyGo (now : ℤ) (idx : ℕ) : List (Option String) → List (List Obs)
  | [] => []
  | o :: rest => hourPointsOfOutcome now o idx :: reconstructHourlyGo now (idx + 1) rest

/-- The per-hour observation lists assembled by the balloons `GET` from the
24 fetch outcomes (`Promise.allSettled` plus the per-task `.catch` make every
outcome available; index `i` fetches `i` hours ago). -/
def reconstructHourly (now : ℤ) (fetches : List (Option String)) : List (List Obs) :=
  reconstructHourlyGo now 0 fetches

/-- The balloons `GET` pipeline: fetch outcomes to tracks. -/
def reconstructTracks (dist : DistFn) (now : ℤ) (fetches : List (Option String)) : List Track :=
  linkTracks dist (reconstructHourly now fetches)

/-- The JSONL-stage line selection as the specification sentence reads: split
on line breaks and keep every non-empty (trimmed) line.  The source's
`jsonlLines` additionally requires the first character to be a brace or a
bracket; this definition exists to compare the two. -/
def jsonlLinesClaimed (cs : List Char) : List (List Char) :=
  ((splitNl cs).map fun l => jsTrim (dropTrailingCR l)).filter fun l => !l.isEmpty

/-- The distance of one `(track point, event point)` pair. -/
def kmOf (dist : DistFn) (p : TrackPoint) (f : FirePoint) : ℚ :=
  dist (p.lat, p.lon) (f.lat, f.lon)

/-- Running minimum over `Option ℚ`, `none` being the initial `Infinity`. -/
def optMin (a : Option ℚ) (b : ℚ) : Option ℚ :=
  some (match a with
    | none => b
    | some m => min m b)

/-- The distances of the full cartesian product of a track's points and the
event points, in scan order. -/
def pairDists (dist : DistFn) (points : List TrackPoint) (fires : List FirePoint) : List ℚ :=
  points.flatMap fun p => fires.map fun f => kmOf dist p f

/-- The minimum distance over the full cartesian product (`none` when there
is no pair). -/
def minOverPairs (dist : DistFn) (points : List TrackPoint) (fires : List FirePoint) :
    Option ℚ :=
  (pairDists dist points fires).foldl optMin none

/-- The number of pairs within the threshold. -/
def nearCountPairs (dist : DistFn) (thr : ℚ) (points : List TrackPoint)
    (fires : List FirePoint) : ℕ :=
  (pairDists dist points fires).countP fun km => decide (km ≤ thr)

/-- Invariant of the insights scan state: when a minimum has been recorded,
some already-scanned point achieves it, and its timestamp is the recorded
`minWhen`. -/
def MinWitness (dist : DistFn) (fires : List FirePoint) (points : List TrackPoint)
    (st : Option ℚ × Option ℤ × ℕ) : Prop :=
  (st.1 = none → st.2.1 = none) ∧
  ∀ m, st.1 = some m → ∃ p ∈ points, st.2.1 = some p.ts ∧ ∃ f ∈ fires, kmOf dist p f = m

/-- The adjacency property of rendered segments: no antimeridian jump, no
over-cap hop. -/
def SegP (dist : DistFn) (maxHopKm : ℚ) (c d : ℚ × ℚ) : Prop :=
  |d.2 - c.2| ≤ 180 ∧ dist c d ≤ maxHopKm

/-- A well-formed output segment: at least two points, gate-respecting
consecutive pairs, and every coordinate pair taken from a point of the input
at or after the cutoff. -/
def SegOk (dist : DistFn) (maxHopKm : ℚ) (src : List PagePoint) (cutoffTs : ℤ)
    (seg : List (ℚ × ℚ)) : Prop :=
  2 ≤ seg.length ∧ seg.Chain' (SegP dist maxHopKm) ∧
    ∀ c ∈ seg, ∃ p ∈ src, cutoffTs ≤ p.ts ∧ c = (p.lat, p.lon)

/-- The invariant the linker maintains for every open track: nonempty, and
consecutive points at least 1800 seconds apart (each append passed the time
gate). -/
def TrackOk (tr : Track) : Prop :=
  tr.points ≠ [] ∧ tr.points.Chain' fun a b => a.ts + 1800 ≤ b.ts

/-! ### Theorems -/

/-- The insights scan leaves the initial state untouched when the fire list
is empty. -/
theorem trackScan_nil_fires (dist : DistFn) (thr : ℚ) (points : List TrackPoint) :
    trackScan dist thr [] points = (none, none, 0) := by
  induction points with
  | nil => rfl
  | cons p rest ih =>
    simp only [trackScan, List.foldl_cons, List.foldl_nil] at ih ⊢
    exact ih

/-- C5: a track with zero points or an empty event list yields the sentinel
`closestKm = +infinity` (modelled `none`), `nearCount = 0`,
`closestTs = undefined` (`none`), and `Math.round(Infinity * 10) / 10` keeps
the sentinel (`round1 none = none`), so the returned stat preserves it. -/
theorem claim5_sentinel_preserved (dist : DistFn) (thr : ℚ) (fires : List FirePoint)
    (t : Track) (h : t.points = [] ∨ fires = []) :
    trackStat dist thr fires t = ⟨t.id, none, 0, none⟩ := by
  rcases h with h | h
  · simp [trackStat, trackScan, h, round1]
  · subst h
    simp [trackStat, trackScan_nil_fires, round1]

/-- Witness for C5 at a concrete one-point track and empty event list. -/
theorem claim5_witness :
    trackStat (fun _ _ => 0) PROX_KM [] ⟨"T1", [⟨"T1", 10, 0, 0, none⟩]⟩
      = ⟨"T1", none, 0, none⟩ :=
  claim5_sentinel_preserved (fun _ _ => 0) PROX_KM [] ⟨"T1", [⟨"T1", 10, 0, 0, none⟩]⟩
    (Or.inr rfl)

/-- Hour lists are built element by element: hour `idx + i` sees only
outcome `i`. -/
theorem reconstructHourlyGo_get (now : ℤ) (l : List (Option String)) :
    ∀ idx i, (reconstructHourlyGo now idx l).get? i
      = (l.get? i).map fun o => hourPointsOfOutcome now o (idx + i) := by
  induction l with
  | nil => intro idx i; simp [reconstructHourlyGo]
  | cons o rest ih =>
    intro idx i
    cases i with
    | zero => simp [reconstructHourlyGo]
    | succ j =>
      simp only [reconstructHourlyGo, List.get?]
      rw [ih (idx + 1) j]
      have harith : idx + 1 + j = idx + (j + 1) := by omega
      rw [harith]

/-- An hour with no points leaves the linker state untouched. -/
theorem linkHour_nil (dist : DistFn) (st : List Track × ℕ) : linkHour dist st [] = st := rfl

/-- Linking all-empty hours produces no tracks. -/
theorem linkTracks_all_empty (dist : DistFn) (hourly : List (List Obs))
    (h : ∀ x ∈ hourly, x = []) : linkTracks dist hourly = [] := by
  have key : ∀ l : List (List Obs), (∀ x ∈ l, x = []) →
      l.foldl (linkHour dist) (([] : List Track), 1) = ([], 1) := by
    intro l hl
    induction l with
    | nil => rfl
    | cons x rest ih =>
      have hx : x = [] := hl x (by simp)
      subst hx
      rw [List.foldl_cons, linkHour_nil]
      exact ih fun y hy => hl y (by simp [hy])
  unfold linkTracks
  rw [key hourly.reverse fun x hx => h x (List.mem_reverse.mp hx)]
  rfl

/-- C6: the reconstruction never fails on fetch failures — each hour's
outcome is mapped to that hour's observation list independently of the other
hours, any failed outcome becomes an empty list, and when all outcomes fail
the pipeline returns an empty track set (not an error; the model is total by
construction). -/
theorem claim6_fetch_failures_isolated :
    (∀ (now : ℤ) (fetches : List (Option String)) (i : ℕ),
        (reconstructHourly now fetches).get? i
          = (fetches.get? i).map fun o => hourPointsOfOutcome now o i) ∧
    (∀ (now : ℤ) (idx : ℕ), hourPointsOfOutcome now none idx = []) ∧
    (∀ (dist : DistFn) (now : ℤ) (fetches : List (Option String)),
        (∀ o ∈ fetches, o = none) → reconstructTracks dist now fetches = []) := by
  refine ⟨?_, ?_, ?_⟩
  · intro now fetches i
    simpa using reconstructHourlyGo_get now fetches 0 i
  · intro now idx
    rfl
  · intro dist now fetches hall
    unfold reconstructTracks
    apply linkTracks_all_empty
    have : ∀ (idx : ℕ) (l : List (Option String)), (∀ o ∈ l, o = none) →
        ∀ x ∈ reconstructHourlyGo now idx l, x = [] := by
      intro idx l
      induction l generalizing idx with
      | nil => intro _ x hx; simp [reconstructHourlyGo] at hx
      | cons o rest ih =>
        intro hl x hx
        have ho : o = none := hl o (by simp)
        subst ho
        simp only [reconstructHourlyGo, List.mem_cons] at hx
        rcases hx with hx | hx
        · simpa [hourPointsOfOutcome] using hx
        · exact ih (idx + 1) (fun y hy => hl y (by simp [hy])) x hx
    exact this 0 fetches hall

/-- Witness for C6: all 24 fetches failing yields an empty track set. -/
theorem claim6_witness :
    reconstructTracks (fun _ _ => 0) 0 (List.replicate 24 none) = [] :=
  claim6_fetch_failures_isolated.2.2 (fun _ _ => 0) 0 (List.replicate 24 none)
    (by simp)

theorem JsonList.toList_ofList (l : List Json) : (JsonList.ofList l).toList = l := by
  induction l with
  | nil => rfl
  | cons x r ih => simp [JsonList.ofList, JsonList.toList, ih]

/-- Without a null element, the Case B loop never throws and processes every
record independently. -/
theorem caseB_no_null (ts : ℤ) (l : List Json) (h : ∀ x ∈ l, x ≠ Json.null) :
    caseB ts l = .ok (l.filterMap (caseBRecord ts)) := by
  induction l with
  | nil => rfl
  | cons x rest ih =>
    have hx : x ≠ Json.null := h x (by simp)
    have ih' := ih fun y hy => h y (by simp [hy])
    cases hcb : caseBRecord ts x with
    | none =>
      cases x with
      | null => exact absurd rfl hx
      | bool b => simp [caseB, ih', List.filterMap_cons, hcb]
      | num q => simp [caseB, ih', List.filterMap_cons, hcb]
      | str s => simp [caseB, ih', List.filterMap_cons, hcb]
      | arr a => simp [caseB, ih', List.filterMap_cons, hcb]
      | obj o => simp [caseB, ih', List.filterMap_cons, hcb]
    | some o =>
      cases x with
      | null => exact absurd rfl hx
      | bool b => simp [caseB, ih', List.filterMap_cons, hcb]
      | num q => simp [caseB, ih', List.filterMap_cons, hcb]
      | str s => simp [caseB, ih', List.filterMap_cons, hcb]
      | arr a => simp [caseB, ih', List.filterMap_cons, hcb]
      | obj o2 => simp [caseB, ih', List.filterMap_cons, hcb]

/-- C7: for a payload of key-value records (Case B, no degenerate null
entries), every record is extracted independently (`filterMap` over the
records), so a record dropped for missing coordinates or non-finite numbers
never affects its siblings; dropping a `none`-record from any position leaves
exactly the siblings' observations; concretely, a payload of three records
whose middle record has a non-finite latitude yields the two sibling
observations. -/
theorem claim7_invalid_record_dropped :
    (∀ (now : ℤ) (h : ℕ) (props : JsonProps) (rest : List Json),
        (∀ x ∈ Json.obj props :: rest, x ≠ Json.null) →
        extractHourPoints now (jarr (Json.obj props :: rest)) h
          = .ok ((Json.obj props :: rest).filterMap
              (caseBRecord (toEpochSecondsFromHourIdx now h)))) ∧
    (∀ (ts : ℤ) (xs ys : List Json) (bad : Json), caseBRecord ts bad = none →
        (xs ++ bad :: ys).filterMap (caseBRecord ts)
          = xs.filterMap (caseBRecord ts) ++ ys.filterMap (caseBRecord ts)) ∧
    (extractHourPoints 5000 (jarr [jobj [("lat", Json.num 1), ("lon", Json.num 2)],
        jobj [("lat", Json.str "Infinity"), ("lon", Json.num 9)],
        jobj [("lat", Json.num 3), ("lon", Json.num 4)]]) 2
      = .ok [⟨5000 - 7200, 1, 2, none⟩, ⟨5000 - 7200, 3, 4, none⟩]) := by
  refine ⟨?_, ?_, by decide⟩
  · intro now h props rest hnn
    show extractHourPoints now (Json.arr (.cons (Json.obj props) (JsonList.ofList rest))) h = _
    simp only [extractHourPoints, jsTypeofObject, if_true]
    rw [JsonList.toList_ofList]
    exact caseB_no_null _ _ hnn
  · intro ts xs ys bad hbad
    simp [List.filterMap_append, List.filterMap_cons, hbad]

/-- Witness for C7 at a concrete single-record payload. -/
theorem claim7_witness :
    extractHourPoints 0 (jarr [jobj [("lat", Json.num 1), ("lon", Json.num 2)]]) 0
      = .ok ([jobj [("lat", Json.num 1), ("lon", Json.num 2)]].filterMap
          (caseBRecord (toEpochSecondsFromHourIdx 0 0))) :=
  claim7_invalid_record_dropped.1 0 0
    (JsonProps.ofList [("lat", Json.num 1), ("lon", Json.num 2)]) [] (by decide)

/-- Every observation Case A produces carries the hour-derived timestamp. -/
theorem caseARow_ts (ts : ℤ) (row : Json) (o : Obs) (h : caseARow ts row = some o) :
    o.ts = ts := by
  cases row with
  | arr l =>
    simp only [caseARow] at h
    split at h
    · split at h
      · exact (Option.some_inj.mp h) ▸ rfl
      · exact absurd h (by simp)
    · exact absurd h (by simp)
  | null => exact absurd h (by simp [caseARow])
  | bool b => exact absurd h (by simp [caseARow])
  | num q => exact absurd h (by simp [caseARow])
  | str s => exact absurd h (by simp [caseARow])
  | obj p => exact absurd h (by simp [caseARow])

/-- Every observation a Case B record produces carries the hour-derived
timestamp. -/
theorem caseBRecord_ts (ts : ℤ) (x : Json) (o : Obs) (h : caseBRecord ts x = some o) :
    o.ts = ts := by
  cases x with
  | obj p =>
    simp only [caseBRecord] at h
    split at h
    · split at h
      · exact (Option.some_inj.mp h) ▸ rfl
      · exact absurd h (by simp)
    · exact absurd h (by simp)
  | null => exact absurd h (by simp [caseBRecord])
  | bool b => exact absurd h (by simp [caseBRecord])
  | num q => exact absurd h (by simp [caseBRecord])
  | str s => exact absurd h (by simp [caseBRecord])
  | arr a => exact absurd h (by simp [caseBRecord])

/-- Every observation of a successful Case B loop carries the hour-derived
timestamp. -/
theorem caseB_ts (ts : ℤ) (l : List Json) (out : List Obs) (h : caseB ts l = .ok out) :
    ∀ o ∈ out, o.ts = ts := by
  induction l generalizing out with
  | nil =>
    simp only [caseB] at h
    cases h
    simp
  | cons x rest ih =>
    cases x with
    | null => exact absurd h (by simp [caseB])
    | bool b =>
      simp only [caseB] at h
      split at h
      · cases h
        intro o ho
        rcases List.mem_append.mp ho with ho | ho
        · exact caseBRecord_ts ts _ o (by
            rcases Option.mem_toList.mp ho with hm
            exact hm)
        · exact ih _ (by assumption) o ho
      · exact absurd h (by simp)
    | num q =>
      simp only [caseB] at h
      split at h
      · cases h
        intro o ho
        rcases List.mem_append.mp ho with ho | ho
        · exact caseBRecord_ts ts _ o (Option.mem_toList.mp ho)
        · exact ih _ (by assumption) o ho
      · exact absurd h (by simp)
    | str s =>
      simp only [caseB] at h
      split at h
      · cases h
        intro o ho
        rcases List.mem_append.mp ho with ho | ho
        · exact caseBRecord_ts ts _ o (Option.mem_toList.mp ho)
        · exact ih _ (by assumption) o ho
      · exact absurd h (by simp)
    | arr a =>
      simp only [caseB] at h
      split at h
      · cases h
        intro o ho
        rcases List.mem_append.mp ho with ho | ho
        · exact caseBRecord_ts ts _ o (Option.mem_toList.mp ho)
        · exact ih _ (by assumption) o ho
      · exact absurd h (by simp)
    | obj p =>
      simp only [caseB] at h
      split at h
      · cases h
        intro o ho
        rcases List.mem_append.mp ho with ho | ho
        · exact caseBRecord_ts ts _ o (Option.mem_toList.mp ho)
        · exact ih _ (by assumption) o ho
      · exact absurd h (by simp)

/-- C10: for an array-of-arrays payload (Case A) and an array-of-records
payload (Case B), every extracted observation carries the identical
hour-derived timestamp `now − hourIdx × 3600` regardless of any timestamp
fields in the payload; a payload-supplied timestamp is honoured in the
recursive-walk case (Case C), exhibited concretely. -/
theorem claim10_timestamps :
    (∀ (now : ℤ) (h : ℕ) (l0 rest : JsonList) (out : List Obs),
        extractHourPoints now (Json.arr (.cons (Json.arr l0) rest)) h = .ok out →
        ∀ o ∈ out, o.ts = now - (h : ℤ) * 3600) ∧
    (∀ (now : ℤ) (h : ℕ) (props : JsonProps) (rest : JsonList) (out : List Obs),
        extractHourPoints now (Json.arr (.cons (Json.obj props) rest)) h = .ok out →
        ∀ o ∈ out, o.ts = now - (h : ℤ) * 3600) ∧
    (extractHourPoints 5000
        (jobj [("lat", Json.num 1), ("lon", Json.num 2), ("ts", Json.num 999)]) 0
      = .ok [⟨999, 1, 2, none⟩] ∧ (999 : ℤ) ≠ 5000 - (0 : ℤ) * 3600) := by
  refine ⟨?_, ?_, by decide, by decide⟩
  · intro now h l0 rest out hex o ho
    simp only [extractHourPoints] at hex
    cases hex
    rcases List.mem_filterMap.mp ho with ⟨row, _, hrow⟩
    exact caseARow_ts _ row o hrow
  · intro now h props rest out hex o ho
    simp only [extractHourPoints, jsTypeofObject, if_true] at hex
    exact caseB_ts _ _ out hex o ho

/-- Witness for C10 at a concrete Case A payload. -/
theorem claim10_witness :
    ∀ o ∈ ([⟨7000 - 3600, 1, 2, none⟩] : List Obs), o.ts = 7000 - (1 : ℤ) * 3600 :=
  claim10_timestamps.1 7000 1 (JsonList.ofList [Json.num 1, Json.num 2]) .nil
    [⟨7000 - 3600, 1, 2, none⟩] (by decide)

/-- C8 counterexample: on the input `\x7b"a":1\x7d` + newline + `5` (whose second
line is non-empty and parses as JSON), the code's JSONL stage skips the line
`5` (its first character is neither `\x7b` nor `[`), so the result differs from
parsing every non-empty line as the claim states. -/
theorem claim8_counterexample :
    safeParseJSON "\x7b\"a\":1\x7d\n5" = some (jarr [jobj [("a", Json.num 1)]]) ∧
    (jsonlLinesClaimed (cleanupChars (stripBOM ("\x7b\"a\":1\x7d\n5").data))).filterMap
        (fun l => jsonParse (String.mk l))
      = [jobj [("a", Json.num 1)], Json.num 5] ∧
    safeParseJSON "\x7b\"a\":1\x7d\n5"
      ≠ some (jarr ((jsonlLinesClaimed (cleanupChars (stripBOM ("\x7b\"a\":1\x7d\n5").data))).filterMap
          fun l => jsonParse (String.mk l))) := by
  refine ⟨by decide, by decide, by decide⟩

/-- C8 (amended): when the straight parse and the repaired parse both fail,
the JSONL stage splits the repaired text on line breaks, keeps the trimmed
non-empty lines whose first character is `\x7b` or `[`, parses each such line
independently, collects the successes, and the stage succeeds if and only if
at least one such line parsed (otherwise `safeParseJSON` falls through to the
block-extraction stage); a string of two newline-separated JSON objects with
no enclosing array succeeds via this stage and yields 2 observations. -/
theorem claim8_jsonl_stage :
    (∀ text : String,
      jsonParse (String.mk (stripBOM text.data)) = none →
      jsonParse (String.mk (cleanupChars (stripBOM text.data))) = none →
      ∀ arr : List Json,
        arr = (jsonlLines (cleanupChars (stripBOM text.data))).filterMap
          (fun l => jsonParse (String.mk l)) →
        (arr ≠ [] → safeParseJSON text = some (jarr arr)) ∧
        (arr = [] → safeParseJSON text
          = extractBlock (cleanupChars (stripBOM text.data)))) ∧
    (safeParseJSON "\x7b\"lat\":1,\"lon\":2\x7d\n\x7b\"lat\":3,\"lon\":4\x7d"
        = some (jarr [jobj [("lat", Json.num 1), ("lon", Json.num 2)],
                      jobj [("lat", Json.num 3), ("lon", Json.num 4)]]) ∧
     extractHourPoints 5000
        (jarr [jobj [("lat", Json.num 1), ("lon", Json.num 2)],
               jobj [("lat", Json.num 3), ("lon", Json.num 4)]]) 0
       = .ok [⟨5000, 1, 2, none⟩, ⟨5000, 3, 4, none⟩]) := by
  refine ⟨?_, by decide, by decide⟩
  intro text h1 h2 arr harr
  constructor
  · intro harrne
    have hlines : ¬ (jsonlLines (cleanupChars (stripBOM text.data))).isEmpty := by
      intro hl
      apply harrne
      rw [harr, List.isEmpty_iff.mp hl]
      rfl
    simp only [safeParseJSON, h1, h2, hlines, ← harr]
    have harrne' : arr.isEmpty = false := by
      cases arr with
      | nil => exact absurd rfl harrne
      | cons a r => rfl
    simp [harrne']
  · intro harrnil
    by_cases hl : (jsonlLines (cleanupChars (stripBOM text.data))).isEmpty
    · simp [safeParseJSON, h1, h2, hl]
    · simp only [safeParseJSON, h1, h2, hl, ← harr, harrnil]
      simp

/-- Witness for C8 at the concrete two-line input, discharging every
hypothesis of the amended theorem by computation. -/
theorem claim8_witness :
    safeParseJSON "\x7b\"lat\":1,\"lon\":2\x7d\n\x7b\"lat\":3,\"lon\":4\x7d"
      = some (jarr [jobj [("lat", Json.num 1), ("lon", Json.num 2)],
                    jobj [("lat", Json.num 3), ("lon", Json.num 4)]]) :=
  (claim8_jsonl_stage.1 "\x7b\"lat\":1,\"lon\":2\x7d\n\x7b\"lat\":3,\"lon\":4\x7d"
      (by decide) (by decide)
      [jobj [("lat", Json.num 1), ("lon", Json.num 2)],
       jobj [("lat", Json.num 3), ("lon", Json.num 4)]] (by decide)).1 (by decide)

theorem fireStep_min (dist : DistFn) (thr : ℚ) (p : TrackPoint)
    (st : Option ℚ × Option ℤ × ℕ) (f : FirePoint) :
    (fireStep dist thr p st f).1 = optMin st.1 (kmOf dist p f) := by
  obtain ⟨mk, mw, n⟩ := st
  cases mk with
  | none => simp [fireStep, optMin, kmOf]
  | some m =>
    simp only [fireStep, optMin, kmOf]
    by_cases hlt : dist (p.lat, p.lon) (f.lat, f.lon) < m
    · simp [hlt, min_eq_right (le_of_lt hlt)]
    · simp [hlt, min_eq_left (le_of_not_lt hlt)]

theorem fireFold_min (dist : DistFn) (thr : ℚ) (p : TrackPoint) (fires : List FirePoint) :
    ∀ st : Option ℚ × Option ℤ × ℕ,
      (fires.foldl (fireStep dist thr p) st).1
        = (fires.map (kmOf dist p)).foldl optMin st.1 := by
  induction fires with
  | nil => intro st; rfl
  | cons f rest ih =>
    intro st
    simp only [List.foldl_cons, List.map_cons]
    rw [ih (fireStep dist thr p st f), fireStep_min]

theorem trackScan_min (dist : DistFn) (thr : ℚ) (fires : List FirePoint) :
    ∀ (points : List TrackPoint) (st : Option ℚ × Option ℤ × ℕ),
      (points.foldl (fun st p => fires.foldl (fireStep dist thr p) st) st).1
        = (pairDists dist points fires).foldl optMin st.1 := by
  intro points
  induction points with
  | nil => intro st; rfl
  | cons p rest ih =>
    intro st
    simp only [List.foldl_cons, pairDists, List.flatMap_cons]
    rw [ih, List.foldl_append, fireFold_min]
    rfl

theorem fireStep_near (dist : DistFn) (thr : ℚ) (p : TrackPoint)
    (st : Option ℚ × Option ℤ × ℕ) (f : FirePoint) :
    (fireStep dist thr p st f).2.2
      = st.2.2 + (if kmOf dist p f ≤ thr then 1 else 0) := by
  obtain ⟨mk, mw, n⟩ := st
  cases mk with
  | none =>
    simp only [fireStep, kmOf]
    by_cases hle : dist (p.lat, p.lon) (f.lat, f.lon) ≤ thr <;> simp [hle]
  | some m =>
    simp only [fireStep, kmOf]
    by_cases hlt : dist (p.lat, p.lon) (f.lat, f.lon) < m <;>
      by_cases hle : dist (p.lat, p.lon) (f.lat, f.lon) ≤ thr <;>
        simp [hlt, hle]

theorem fireFold_near (dist : DistFn) (thr : ℚ) (p : TrackPoint) (fires : List FirePoint) :
    ∀ st : Option ℚ × Option ℤ × ℕ,
      (fires.foldl (fireStep dist thr p) st).2.2
        = st.2.2 + (fires.map fun f => kmOf dist p f).countP fun km => decide (km ≤ thr) := by
  induction fires with
  | nil => intro st; simp
  | cons f rest ih =>
    intro st
    simp only [List.foldl_cons, List.map_cons, List.countP_cons]
    rw [ih (fireStep dist thr p st f), fireStep_near]
    by_cases hle : kmOf dist p f ≤ thr
    · simp [hle]
      omega
    · simp [hle]

theorem trackScan_near (dist : DistFn) (thr : ℚ) (fires : List FirePoint) :
    ∀ (points : List TrackPoint) (st : Option ℚ × Option ℤ × ℕ),
      (points.foldl (fun st p => fires.foldl (fireStep dist thr p) st) st).2.2
        = st.2.2 + (pairDists dist points fires).countP fun km => decide (km ≤ thr) := by
  intro points
  induction points with
  | nil => intro st; simp [pairDists]
  | cons p rest ih =>
    intro st
    have ih2 := ih (fires.foldl (fireStep dist thr p) st)
    simp only [pairDists] at ih2 ⊢
    simp only [List.foldl_cons, List.flatMap_cons, List.countP_append]
    rw [ih2, fireFold_near]
    omega

theorem fireStep_witness (dist : DistFn) (thr : ℚ) (fires : List FirePoint)
    (points : List TrackPoint) (p : TrackPoint) (hp : p ∈ points) (f : FirePoint)
    (hf : f ∈ fires) (st : Option ℚ × Option ℤ × ℕ)
    (h : MinWitness dist fires points st) :
    MinWitness dist fires points (fireStep dist thr p st f) := by
  obtain ⟨mk, mw, n⟩ := st
  obtain ⟨h1, h2⟩ := h
  cases mk with
  | none =>
    refine ⟨?_, ?_⟩
    · intro hc
      simp [fireStep] at hc
    · intro m hm
      simp only [fireStep] at hm ⊢
      refine ⟨p, hp, rfl, f, hf, ?_⟩
      simpa [kmOf] using hm
  | some m0 =>
    by_cases hlt : dist (p.lat, p.lon) (f.lat, f.lon) < m0
    · refine ⟨?_, ?_⟩
      · intro hc
        simp [fireStep, hlt] at hc
      · intro m hm
        simp only [fireStep, hlt] at hm
        simp only [decide_True, if_true] at hm
        refine ⟨p, hp, ?_, f, hf, ?_⟩
        · simp [fireStep, hlt]
        · simp only [kmOf]
          exact Option.some_inj.mp hm
    · refine ⟨?_, ?_⟩
      · intro hc
        simp [fireStep, hlt] at hc
      · intro m hm
        have hm0 : m0 = m := by
          simp only [fireStep, hlt] at hm
          simp only [decide_False, if_false] at hm
          exact Option.some_inj.mp hm
        obtain ⟨q, hq, hqw, g, hg, hgm⟩ := h2 m0 rfl
        refine ⟨q, hq, ?_, g, hg, hm0 ▸ hgm⟩
        simp [fireStep, hlt]
        exact hqw

theorem fireFold_witness (dist : DistFn) (thr : ℚ) (fires : List FirePoint)
    (points : List TrackPoint) (p : TrackPoint) (hp : p ∈ points) :
    ∀ (fs : List FirePoint), (∀ f ∈ fs, f ∈ fires) →
      ∀ st, MinWitness dist fires points st →
        MinWitness dist fires points (fs.foldl (fireStep dist thr p) st) := by
  intro fs
  induction fs with
  | nil => intro _ st h; exact h
  | cons f rest ih =>
    intro hsub st h
    simp only [List.foldl_cons]
    exact ih (fun g hg => hsub g (by simp [hg]))
      (fireStep dist thr p st f)
      (fireStep_witness dist thr fires points p hp f (hsub f (by simp)) st h)

theorem trackScan_witness (dist : DistFn) (thr : ℚ) (fires : List FirePoint)
    (points : List TrackPoint) :
    ∀ (pts : List TrackPoint), (∀ q ∈ pts, q ∈ points) →
      ∀ st, MinWitness dist fires points st →
        MinWitness dist fires points
          (pts.foldl (fun st p => fires.foldl (fireStep dist thr p) st) st) := by
  intro pts
  induction pts with
  | nil => intro _ st h; exact h
  | cons p rest ih =>
    intro hsub st h
    simp only [List.foldl_cons]
    exact ih (fun q hq => hsub q (by simp [hq])) _
      (fireFold_witness dist thr fires points p (hsub p (by simp)) fires
        (fun _ hf => hf) st h)

/-- Folding `optMin` from `some b` always yields `some`. -/
theorem foldl_optMin_isSome (l : List ℚ) : ∀ b : ℚ, ∃ m, l.foldl optMin (some b) = some m := by
  induction l with
  | nil => intro b; exact ⟨b, rfl⟩
  | cons x rest ih =>
    intro b
    simpa [optMin] using ih (min b x)

/-- The characterisation of `foldl optMin`: the result bounds every scanned
value and the seed, and is one of them. -/
theorem foldl_optMin_spec (l : List ℚ) :
    ∀ (acc : Option ℚ) (m : ℚ), l.foldl optMin acc = some m →
      (∀ x ∈ l, m ≤ x) ∧ (∀ a, acc = some a → m ≤ a) ∧ (acc = some m ∨ m ∈ l) := by
  induction l with
  | nil =>
    intro acc m h
    refine ⟨by simp, ?_, Or.inl h⟩
    intro a ha
    rw [List.foldl_nil] at h
    rw [h] at ha
    exact le_of_eq (Option.some_inj.mp ha)
  | cons x rest ih =>
    intro acc m h
    simp only [List.foldl_cons] at h
    obtain ⟨ihrest, ihacc, ihmem⟩ := ih (optMin acc x) m h
    cases acc with
    | none =>
      have hx : m ≤ x := ihacc x (by simp [optMin])
      refine ⟨?_, by simp, ?_⟩
      · intro y hy
        rcases List.mem_cons.mp hy with hy | hy
        · exact hy ▸ hx
        · exact ihrest y hy
      · rcases ihmem with hm | hm
        · simp only [optMin] at hm
          exact Or.inr (by simp [Option.some_inj.mp hm])
        · exact Or.inr (by simp [hm])
    | some a0 =>
      have hmin : m ≤ min a0 x := ihacc (min a0 x) (by simp [optMin])
      refine ⟨?_, ?_, ?_⟩
      · intro y hy
        rcases List.mem_cons.mp hy with hy | hy
        · exact hy ▸ le_trans hmin (min_le_right a0 x)
        · exact ihrest y hy
      · intro a ha
        exact (Option.some_inj.mp ha) ▸ le_trans hmin (min_le_left a0 x)
      · rcases ihmem with hm | hm
        · simp only [optMin] at hm
          have := Option.some_inj.mp hm
          rcases min_cases a0 x with ⟨heq, _⟩ | ⟨heq, _⟩
          · exact Or.inl (by rw [← this, heq])
          · exact Or.inr (by simp [← this, heq])
        · exact Or.inr (by simp [hm])

/-- C2 counterexample: with one track point and one event at distance
`0.05 km`, the returned `closest_km` is `Math.round(0.05 * 10) / 10 = 0.1`,
not the minimum `0.05` over the cartesian product — the claim's "closestKm
equal to the minimum great-circle distance" fails because the route rounds to
one decimal. -/
theorem claim2_counterexample :
    (trackStat (fun _ _ => Rat.divInt 1 20) PROX_KM [⟨0, 0⟩]
        ⟨"T1", [⟨"T1", 10, 0, 0, none⟩]⟩).closest_km = some (Rat.divInt 1 10) ∧
    minOverPairs (fun _ _ => Rat.divInt 1 20) [⟨"T1", 10, 0, 0, none⟩] [⟨0, 0⟩]
      = some (Rat.divInt 1 20) ∧
    (trackStat (fun _ _ => Rat.divInt 1 20) PROX_KM [⟨0, 0⟩]
        ⟨"T1", [⟨"T1", 10, 0, 0, none⟩]⟩).closest_km
      ≠ minOverPairs (fun _ _ => Rat.divInt 1 20) [⟨"T1", 10, 0, 0, none⟩] [⟨0, 0⟩] := by
  refine ⟨by decide, by decide, by decide⟩

/-- C2 (amended): over the full cartesian product of a track's points and
the event points the scan computes the true minimum (`closest_km` is that
minimum rounded to the nearest tenth of a km, sentinel preserved), the
near-count is the number of pairs within the threshold (pairs, not distinct
events or points), the minimum exists whenever the track and the event list
are both non-empty, `closest_ts` is the timestamp of a track point achieving
the minimum, and a track with one point co-located with one event point
yields `closest_km = 0` and `near_count = 1`. -/
theorem claim2_proximity_stats :
    (∀ (dist : DistFn) (thr : ℚ) (fires : List FirePoint) (t : Track),
        (trackStat dist thr fires t).closest_km
            = round1 (minOverPairs dist t.points fires) ∧
        (trackStat dist thr fires t).near_count
            = nearCountPairs dist thr t.points fires) ∧
    (∀ (dist : DistFn) (points : List TrackPoint) (fires : List FirePoint) (m : ℚ),
        minOverPairs dist points fires = some m →
        m ∈ pairDists dist points fires ∧ ∀ x ∈ pairDists dist points fires, m ≤ x) ∧
    (∀ (dist : DistFn) (points : List TrackPoint) (fires : List FirePoint),
        points ≠ [] → fires ≠ [] → ∃ m, minOverPairs dist points fires = some m) ∧
    (∀ (dist : DistFn) (thr : ℚ) (fires : List FirePoint) (t : Track) (m : ℚ),
        minOverPairs dist t.points fires = some m →
        ∃ p ∈ t.points, (trackStat dist thr fires t).closest_ts = some p.ts ∧
          ∃ f ∈ fires, kmOf dist p f = m) ∧
    (∀ (dist : DistFn) (id : String) (p : TrackPoint) (f : FirePoint),
        dist (p.lat, p.lon) (f.lat, f.lon) = 0 →
        trackStat dist PROX_KM [f] ⟨id, [p]⟩ = ⟨id, some 0, 1, some p.ts⟩) := by
  refine ⟨?_, ?_, ?_, ?_, ?_⟩
  · intro dist thr fires t
    constructor
    · show round1 (trackScan dist thr fires t.points).1 = _
      rw [show (trackScan dist thr fires t.points).1
            = minOverPairs dist t.points fires from trackScan_min dist thr fires t.points _]
    · show (trackScan dist thr fires t.points).2.2 = _
      rw [show (trackScan dist thr fires t.points).2.2
            = 0 + nearCountPairs dist thr t.points fires from
          trackScan_near dist thr fires t.points _]
      omega
  · intro dist points fires m h
    obtain ⟨hall, _, hmem⟩ := foldl_optMin_spec (pairDists dist points fires) none m h
    rcases hmem with hc | hc
    · exact absurd hc (by simp)
    · exact ⟨hc, hall⟩
  · intro dist points fires hp hf
    cases points with
    | nil => exact absurd rfl hp
    | cons p rest =>
      cases fires with
      | nil => exact absurd rfl hf
      | cons f fs =>
        show ∃ m, (pairDists dist (p :: rest) (f :: fs)).foldl optMin none = some m
        simp only [pairDists, List.flatMap_cons, List.map_cons, List.cons_append,
          List.foldl_cons]
        exact foldl_optMin_isSome _ _
  · intro dist thr fires t m h
    have hw : MinWitness dist fires t.points (trackScan dist thr fires t.points) := by
      unfold trackScan
      exact trackScan_witness dist thr fires t.points t.points (fun _ hq => hq)
        (none, none, 0) ⟨fun _ => rfl, fun m hm => by cases hm⟩
    have hmin : (trackScan dist thr fires t.points).1 = some m := by
      unfold trackScan
      rw [trackScan_min dist thr fires t.points (none, none, 0)]
      exact h
    obtain ⟨p, hp, hts, f, hf, hkm⟩ := hw.2 m hmin
    exact ⟨p, hp, hts, f, hf, hkm⟩
  · intro dist id p f hdist
    have : trackScan dist PROX_KM [f] [p] = (some 0, some p.ts, 1) := by
      simp [trackScan, fireStep, hdist, PROX_KM]
    simp only [trackStat, this]
    have hr : round1 (some 0) = some 0 := by decide
    rw [hr]

/-- Witness for C2 at a concrete co-located point and event. -/
theorem claim2_witness :
    trackStat (fun _ _ => 0) PROX_KM [⟨0, 0⟩] ⟨"T1", [⟨"T1", 10, 0, 0, none⟩]⟩
      = ⟨"T1", some 0, 1, some 10⟩ :=
  claim2_proximity_stats.2.2.2.2 (fun _ _ => 0) "T1" ⟨"T1", 10, 0, 0, none⟩ ⟨0, 0⟩ rfl

theorem qsub_eq (a b : ℚ) : qsub a b = a - b := by
  unfold qsub
  rw [Rat.divInt_eq_div]
  push_cast
  rw [div_eq_iff (by positivity)]
  have ha := Rat.num_div_den a
  have hb := Rat.num_div_den b
  have hda : (a.den : ℚ) ≠ 0 := by positivity
  have hdb : (b.den : ℚ) ≠ 0 := by positivity
  have hna : (a.num : ℚ) = a * a.den := (div_eq_iff hda).mp ha
  have hnb : (b.num : ℚ) = b * b.den := (div_eq_iff hdb).mp hb
  rw [hna, hnb]
  ring

theorem segFlush_ok (dist : DistFn) (cap : ℚ) (src : List PagePoint) (cutoff : ℤ)
    (cur : List (ℚ × ℚ)) (segs : List (List (ℚ × ℚ)))
    (hsegs : ∀ seg ∈ segs, SegOk dist cap src cutoff seg)
    (hcur : cur.Chain' (SegP dist cap))
    (hmem : ∀ c ∈ cur, ∃ p ∈ src, cutoff ≤ p.ts ∧ c = (p.lat, p.lon)) :
    ∀ seg ∈ segFlush cur segs, SegOk dist cap src cutoff seg := by
  intro seg hseg
  unfold segFlush at hseg
  split at hseg
  · rcases List.mem_append.mp hseg with hs | hs
    · exact hsegs seg hs
    · have : seg = cur := by simpa using hs
      subst this
      exact ⟨by assumption, hcur, hmem⟩
  · exact hsegs seg hseg

theorem segGo_ok (dist : DistFn) (cap : ℚ) (src : List PagePoint) (cutoff : ℤ) :
    ∀ (rest : List PagePoint) (a : PagePoint) (cur : List (ℚ × ℚ))
      (segs : List (List (ℚ × ℚ))),
      (∀ q ∈ rest, q ∈ src ∧ cutoff ≤ q.ts) →
      cur.getLast? = some (a.lat, a.lon) →
      cur.Chain' (SegP dist cap) →
      (∀ c ∈ cur, ∃ p ∈ src, cutoff ≤ p.ts ∧ c = (p.lat, p.lon)) →
      (∀ seg ∈ segs, SegOk dist cap src cutoff seg) →
      ∀ seg ∈ segGo dist cap a rest cur segs, SegOk dist cap src cutoff seg := by
  intro rest
  induction rest with
  | nil =>
    intro a cur segs _ _ hchain hmem hsegs
    exact segFlush_ok dist cap src cutoff cur segs hsegs hchain hmem
  | cons b rest2 ih =>
    intro a cur segs hrest hlast hchain hmem hsegs
    obtain ⟨hbsrc, hbts⟩ := hrest b (by simp)
    have hrest2 : ∀ q ∈ rest2, q ∈ src ∧ cutoff ≤ q.ts :=
      fun q hq => hrest q (by simp [hq])
    simp only [segGo]
    split
    · exact ih b [(b.lat, b.lon)] (segFlush cur segs) hrest2 rfl (by simp)
        (by
          intro c hc
          simp only [List.mem_singleton] at hc
          exact ⟨b, hbsrc, hbts, hc⟩)
        (segFlush_ok dist cap src cutoff cur segs hsegs hchain hmem)
    · rename_i hnot
      have hgate : SegP dist cap (a.lat, a.lon) (b.lat, b.lon) := by
        rw [not_or] at hnot
        obtain ⟨hcross, hhop⟩ := hnot
        constructor
        · have := not_lt.mp hcross
          calc |(b.lat, b.lon).2 - (a.lat, a.lon).2| = |qsub b.lon a.lon| := by
                rw [qsub_eq]
          _ ≤ 180 := this
        · exact not_lt.mp hhop
      exact ih b (cur ++ [(b.lat, b.lon)]) segs hrest2
        (by simp)
        (by
          rw [List.chain'_append]
          refine ⟨hchain, by simp, ?_⟩
          intro x hx y hy
          simp only [List.head?_cons, Option.mem_def, Option.some_inj] at hy
          rw [hlast] at hx
          simp only [Option.mem_def, Option.some_inj] at hx
          rw [← hx, ← hy]
          exact hgate)
        (by
          intro c hc
          rcases List.mem_append.mp hc with hc | hc
          · exact hmem c hc
          · have : c = (b.lat, b.lon) := by simpa using hc
            exact ⟨b, hbsrc, hbts, this⟩)
        hsegs

/-- C9: the segmenter keeps only points at or after the cutoff, every output
segment has at least 2 points, consecutive points within a segment never
differ by more than 180° of longitude nor by more than the hop cap in
distance; and a track crossing longitude 179° → −179° between two
consecutive points is split into two segments at that boundary. -/
theorem claim9_segmenter :
    (∀ (dist : DistFn) (pts : List PagePoint) (cutoff : ℤ) (cap : ℚ),
      ∀ seg ∈ splitByDatelineAndHops dist pts cutoff cap,
        2 ≤ seg.length ∧
        seg.Chain' (fun c d => |d.2 - c.2| ≤ 180 ∧ dist c d ≤ cap) ∧
        ∀ c ∈ seg, ∃ p ∈ pts, cutoff ≤ p.ts ∧ c = (p.lat, p.lon)) ∧
    (∀ dist : DistFn,
        dist (0, 178) (0, 179) ≤ 800 → dist (0, -179) (0, -178) ≤ 800 →
        splitByDatelineAndHops dist
          [⟨100, 0, 178⟩, ⟨200, 0, 179⟩, ⟨300, 0, -179⟩, ⟨400, 0, -178⟩] 0 800
          = [[(0, 178), (0, 179)], [(0, -179), (0, -178)]]) := by
  constructor
  · intro dist pts cutoff cap seg hseg
    have hmemfilter : ∀ q ∈ pts.filter (fun p => decide (cutoff ≤ p.ts)),
        q ∈ pts ∧ cutoff ≤ q.ts := by
      intro q hq
      have := List.mem_filter.mp hq
      exact ⟨this.1, by simpa using this.2⟩
    unfold splitByDatelineAndHops at hseg
    rcases hf : pts.filter (fun p => decide (cutoff ≤ p.ts)) with _ | ⟨a, _ | ⟨b, rest2⟩⟩
    · rw [hf] at hseg
      simp at hseg
    · rw [hf] at hseg
      simp at hseg
    · rw [hf] at hseg
      replace hseg : seg ∈ segGo dist cap a (b :: rest2) [(a.lat, a.lon)] [] := hseg
      have hsub : ∀ q ∈ a :: b :: rest2, q ∈ pts ∧ cutoff ≤ q.ts := by
        intro q hq
        exact hmemfilter q (hf ▸ hq)
      have := segGo_ok dist cap pts cutoff (b :: rest2) a [(a.lat, a.lon)] []
        (fun q hq => hsub q (by simp [hq]))
        rfl (by simp)
        (fun c hc => ⟨a, (hsub a (by simp)).1, (hsub a (by simp)).2, by simpa using hc⟩)
        (by simp)
        seg hseg
      exact ⟨this.1, this.2.1, this.2.2⟩
  · intro dist h1 h2
    have hno1 : ¬(|qsub (179 : ℚ) 178| > 180 ∨ dist (0, 178) (0, 179) > 800) :=
      not_or.mpr ⟨by decide, not_lt.mpr h1⟩
    have hyes : (|qsub (-179 : ℚ) 179| > 180 ∨ dist (0, 179) (0, -179) > 800) :=
      Or.inl (by decide)
    have hno2 : ¬(|qsub (-178 : ℚ) (-179)| > 180 ∨ dist (0, -179) (0, -178) > 800) :=
      not_or.mpr ⟨by decide, not_lt.mpr h2⟩
    have hfilter : ([⟨100, 0, 178⟩, ⟨200, 0, 179⟩, ⟨300, 0, -179⟩,
        (⟨400, 0, -178⟩ : PagePoint)].filter fun p => decide ((0 : ℤ) ≤ p.ts))
        = [⟨100, 0, 178⟩, ⟨200, 0, 179⟩, ⟨300, 0, -179⟩, ⟨400, 0, -178⟩] := by decide
    unfold splitByDatelineAndHops
    rw [hfilter]
    simp only [segGo, hno1, hyes, hno2, if_false, if_true, segFlush]
    norm_num

/-- Witness for C9 at the concrete dateline-crossing track. -/
theorem claim9_witness :
    splitByDatelineAndHops (fun _ _ => 0)
      [⟨100, 0, 178⟩, ⟨200, 0, 179⟩, ⟨300, 0, -179⟩, ⟨400, 0, -178⟩] 0 800
      = [[(0, 178), (0, 179)], [(0, -179), (0, -178)]] :=
  claim9_segmenter.2 (fun _ _ => 0) (by norm_num) (by norm_num)

/-- The gates read off a successful gate test. -/
theorem candGate_spec (dist : DistFn) (p : Obs) (last : TrackPoint) (km : ℚ)
    (h : candGate dist p last = some km) :
    1800 ≤ p.ts - last.ts ∧ p.ts - last.ts ≤ 5400 ∧
      km = dist (last.lat, last.lon) (p.lat, p.lon) ∧
      km ≤ allowedKm (p.ts - last.ts) := by
  unfold candGate at h
  split_ifs at h with hdt hkm
  rw [not_or] at hdt
  have hkmq := Option.some_inj.mp h
  refine ⟨by omega, by omega, hkmq.symm, ?_⟩
  rw [← hkmq]
  exact not_lt.mp hkm

/-- The time-delta/velocity gates, read off a successful candidate test: the
track is unclaimed, the delta lies in `[1800, 5400]` seconds, and the
distance to the track's last point is at most `allowedKm dt`. -/
theorem candOk_spec (dist : DistFn) (p : Obs) (used : List String) (tr : Track) (km : ℚ)
    (h : candOk dist p used tr = some km) :
    tr.id ∉ used ∧ ∃ last, tr.points.getLast? = some last ∧
      1800 ≤ p.ts - last.ts ∧ p.ts - last.ts ≤ 5400 ∧
      km = dist (last.lat, last.lon) (p.lat, p.lon) ∧
      km ≤ allowedKm (p.ts - last.ts) := by
  unfold candOk at h
  by_cases hused : tr.id ∈ used
  · rw [if_pos hused] at h
    exact absurd h (by simp)
  · rw [if_neg hused] at h
    cases hlast : tr.points.getLast? with
    | none =>
      simp only [hlast] at h
      exact absurd h (by simp)
    | some last =>
      simp only [hlast] at h
      obtain ⟨h1, h2, h3, h4⟩ := candGate_spec dist p last km h
      exact ⟨hused, last, rfl, h1, h2, h3, h4⟩

/-- The bound `allowedKm` is the cap scaled by the elapsed hours. -/
theorem allowedKm_eq (dt : ℤ) : allowedKm dt = MAX_LINK_KM_PER_H * ((dt : ℚ) / 3600) := by
  unfold allowedKm MAX_LINK_KM_PER_H
  rw [Rat.divInt_eq_div]
  push_cast
  ring

/-- A successful candidate test with all conditions supplied. -/
theorem candOk_pass (dist : DistFn) (p : Obs) (used : List String) (tr : Track)
    (last : TrackPoint) (hu : tr.id ∉ used) (hl : tr.points.getLast? = some last)
    (h1 : 1800 ≤ p.ts - last.ts) (h2 : p.ts - last.ts ≤ 5400)
    (h3 : dist (last.lat, last.lon) (p.lat, p.lon) ≤ allowedKm (p.ts - last.ts)) :
    candOk dist p used tr = some (dist (last.lat, last.lon) (p.lat, p.lon)) := by
  unfold candOk candGate
  rw [if_neg hu]
  simp only [hl]
  rw [if_neg (by omega), if_neg (not_lt.mpr h3)]

/-- A candidate test failing on the time gate. -/
theorem candOk_dt_fail (dist : DistFn) (p : Obs) (used : List String) (tr : Track)
    (last : TrackPoint) (hl : tr.points.getLast? = some last)
    (h : p.ts - last.ts < 1800 ∨ p.ts - last.ts > 5400) :
    candOk dist p used tr = none := by
  unfold candOk candGate
  split_ifs with hused
  · rfl
  · simp only [hl]
    rw [if_pos h]

/-- Starting the best-candidate scan from a recorded best always returns a
result at least as good. -/
theorem bestGo_acc_some (dist : DistFn) (p : Obs) (used : List String) :
    ∀ (tracks : List Track) (t0 bi : ℕ) (bk : ℚ),
      ∃ i km, bestGo dist p used tracks t0 (some (bi, bk)) = some (i, km) ∧ km ≤ bk := by
  intro tracks
  induction tracks with
  | nil => intro t0 bi bk; exact ⟨bi, bk, rfl, le_refl bk⟩
  | cons tr rest ih =>
    intro t0 bi bk
    cases hc : candOk dist p used tr with
    | none =>
      obtain ⟨i, km, heq, hle⟩ := ih (t0 + 1) bi bk
      exact ⟨i, km, by simp [bestGo, hc, heq], hle⟩
    | some km0 =>
      by_cases hlt : km0 < bk
      · obtain ⟨i, km, heq, hle⟩ := ih (t0 + 1) t0 km0
        exact ⟨i, km, by simp [bestGo, hc, hlt, heq], le_trans hle (le_of_lt hlt)⟩
      · obtain ⟨i, km, heq, hle⟩ := ih (t0 + 1) bi bk
        exact ⟨i, km, by simp [bestGo, hc, hlt, heq], hle⟩

/-- The best-candidate scan result bounds every candidate's distance. -/
theorem bestGo_le (dist : DistFn) (p : Obs) (used : List String) :
    ∀ (tracks : List Track) (t0 : ℕ) (acc : Option (ℕ × ℚ)) (j : ℕ), j < tracks.length →
      ∀ kj, candOk dist p used (tracks.getD j ⟨"", []⟩) = some kj →
        ∃ i km, bestGo dist p used tracks t0 acc = some (i, km) ∧ km ≤ kj := by
  intro tracks
  induction tracks with
  | nil =>
    intro t0 acc j hj
    exact absurd hj (by simp)
  | cons tr rest ih =>
    intro t0 acc j hj kj hcand
    cases j with
    | zero =>
      rw [show (tr :: rest).getD 0 ⟨"", []⟩ = tr from rfl] at hcand
      cases acc with
      | none =>
        obtain ⟨i, km, heq, hle⟩ := bestGo_acc_some dist p used rest (t0 + 1) t0 kj
        exact ⟨i, km, by simp [bestGo, hcand, heq], hle⟩
      | some b =>
        obtain ⟨bi, bk⟩ := b
        by_cases hlt : kj < bk
        · obtain ⟨i, km, heq, hle⟩ := bestGo_acc_some dist p used rest (t0 + 1) t0 kj
          exact ⟨i, km, by simp [bestGo, hcand, hlt, heq], hle⟩
        · obtain ⟨i, km, heq, hle⟩ := bestGo_acc_some dist p used rest (t0 + 1) bi bk
          exact ⟨i, km, by simp [bestGo, hcand, hlt, heq],
            le_trans hle (not_lt.mp hlt)⟩
    | succ j2 =>
      have hcand2 : candOk dist p used (rest.getD j2 ⟨"", []⟩) = some kj := by
        simpa using hcand
      have hj2 : j2 < rest.length := by simpa using hj
      cases hc : candOk dist p used tr with
      | none =>
        obtain ⟨i, km, heq, hle⟩ := ih (t0 + 1) acc j2 hj2 kj hcand2
        exact ⟨i, km, by simp [bestGo, hc, heq], hle⟩
      | some km0 =>
        cases acc with
        | none =>
          obtain ⟨i, km, heq, hle⟩ := ih (t0 + 1) (some (t0, km0)) j2 hj2 kj hcand2
          exact ⟨i, km, by simp [bestGo, hc, heq], hle⟩
        | some b =>
          obtain ⟨bi, bk⟩ := b
          by_cases hlt : km0 < bk
          · obtain ⟨i, km, heq, hle⟩ := ih (t0 + 1) (some (t0, km0)) j2 hj2 kj hcand2
            exact ⟨i, km, by simp [bestGo, hc, hlt, heq], hle⟩
          · obtain ⟨i, km, heq, hle⟩ := ih (t0 + 1) (some (bi, bk)) j2 hj2 kj hcand2
            exact ⟨i, km, by simp [bestGo, hc, hlt, heq], hle⟩

/-- The best-candidate scan result is the recorded best or an actual
candidate at its reported index. -/
theorem bestGo_mem (dist : DistFn) (p : Obs) (used : List String) :
    ∀ (tracks : List Track) (t0 : ℕ) (acc : Option (ℕ × ℚ)) (i : ℕ) (km : ℚ),
      bestGo dist p used tracks t0 acc = some (i, km) →
      acc = some (i, km) ∨ ∃ j, j < tracks.length ∧ i = t0 + j ∧
        candOk dist p used (tracks.getD j ⟨"", []⟩) = some km := by
  intro tracks
  induction tracks with
  | nil => intro t0 acc i km h; exact Or.inl h
  | cons tr rest ih =>
    intro t0 acc i km h
    cases hc : candOk dist p used tr with
    | none =>
      rw [show bestGo dist p used (tr :: rest) t0 acc
            = bestGo dist p used rest (t0 + 1) acc by simp [bestGo, hc]] at h
      rcases ih (t0 + 1) acc i km h with hl | ⟨j, hjlen, hji, hjc⟩
      · exact Or.inl hl
      · exact Or.inr ⟨j + 1, by simpa using hjlen, by omega, by simpa using hjc⟩
    | some km0 =>
      cases acc with
      | none =>
        rw [show bestGo dist p used (tr :: rest) t0 none
              = bestGo dist p used rest (t0 + 1) (some (t0, km0)) by simp [bestGo, hc]] at h
        rcases ih (t0 + 1) (some (t0, km0)) i km h with hl | ⟨j, hjlen, hji, hjc⟩
        · have hpair := Option.some_inj.mp hl
          have hi : t0 = i := congrArg Prod.fst hpair
          have hkm : km0 = km := congrArg Prod.snd hpair
          exact Or.inr ⟨0, by simp, by omega, by simp [← hkm, hc]⟩
        · exact Or.inr ⟨j + 1, by simpa using hjlen, by omega, by simpa using hjc⟩
      | some b =>
        obtain ⟨bi, bk⟩ := b
        by_cases hlt : km0 < bk
        · rw [show bestGo dist p used (tr :: rest) t0 (some (bi, bk))
                = bestGo dist p used rest (t0 + 1) (some (t0, km0)) by
              simp [bestGo, hc, hlt]] at h
          rcases ih (t0 + 1) (some (t0, km0)) i km h with hl | ⟨j, hjlen, hji, hjc⟩
          · have hpair := Option.some_inj.mp hl
            have hi : t0 = i := congrArg Prod.fst hpair
            have hkm : km0 = km := congrArg Prod.snd hpair
            exact Or.inr ⟨0, by simp, by omega, by simp [← hkm, hc]⟩
          · exact Or.inr ⟨j + 1, by simpa using hjlen, by omega, by simpa using hjc⟩
        · rw [show bestGo dist p used (tr :: rest) t0 (some (bi, bk))
                = bestGo dist p used rest (t0 + 1) (some (bi, bk)) by
              simp [bestGo, hc, hlt]] at h
          rcases ih (t0 + 1) (some (bi, bk)) i km h with hl | ⟨j, hjlen, hji, hjc⟩
          · exact Or.inl hl
          · exact Or.inr ⟨j + 1, by simpa using hjlen, by omega, by simpa using hjc⟩

/-- The selected track of one observation: a real index whose candidate test
passed, with distance minimal among all candidates. -/
theorem bestCandidate_spec (dist : DistFn) (p : Obs) (used : List String)
    (tracks : List Track) (t : ℕ) (h : bestCandidate dist p used tracks = some t) :
    t < tracks.length ∧ ∃ km, candOk dist p used (tracks.getD t ⟨"", []⟩) = some km ∧
      ∀ j, j < tracks.length →
        ∀ kj, candOk dist p used (tracks.getD j ⟨"", []⟩) = some kj → km ≤ kj := by
  unfold bestCandidate at h
  cases hb : bestGo dist p used tracks 0 none with
  | none =>
    rw [hb] at h
    exact absurd h (by simp)
  | some b =>
    obtain ⟨i, km⟩ := b
    rw [hb] at h
    have hit : i = t := by simpa using h
    subst hit
    rcases bestGo_mem dist p used tracks 0 none i km hb with hl | ⟨j, hjlen, hji, hjc⟩
    · exact absurd hl (by simp)
    · have hij : i = j := by omega
      subst hij
      refine ⟨hjlen, km, hjc, ?_⟩
      intro j2 hj2 kj hcand
      obtain ⟨i2, km2, heq, hle⟩ := bestGo_le dist p used tracks 0 none j2 hj2 kj hcand
      rw [hb] at heq
      have hpair := Option.some_inj.mp heq
      have hkm2 : km = km2 := congrArg Prod.snd hpair
      rw [hkm2]
      exact hle

/-- The first non-empty hour seeds one new track per observation. -/
theorem linkHour_seed_single (dist : DistFn) (n : ℕ) (p : Obs) :
    linkHour dist ([], n) [p] = ([⟨trackName n, [obsToPoint (trackName n) p]⟩], n + 1) := by
  simp [linkHour, seedTracks]

/-- One observation against one open track that passes the gates: the
observation is appended to that track. -/
theorem linkHour_single_match (dist : DistFn) (tr : Track) (n : ℕ) (p : Obs) (km : ℚ)
    (h : candOk dist p [] tr = some km) :
    linkHour dist ([tr], n) [p] = ([⟨tr.id, tr.points ++ [obsToPoint tr.id p]⟩], n) := by
  simp [linkHour, linkPoint, bestCandidate, bestGo, h, seedTracks]

/-- One observation against one open track that fails the gates: the track
is left alone and the observation seeds a new track. -/
theorem linkHour_single_nomatch (dist : DistFn) (tr : Track) (n : ℕ) (p : Obs)
    (h : candOk dist p [] tr = none) :
    linkHour dist ([tr], n) [p]
      = ([tr, ⟨trackName n, [obsToPoint (trackName n) p]⟩], n + 1) := by
  simp [linkHour, linkPoint, bestCandidate, bestGo, h, seedTracks]

/-- One observation against two open tracks where only the second passes the
gates: the observation is appended to the second track. -/
theorem linkHour_two_secondmatch (dist : DistFn) (tr1 tr2 : Track) (n : ℕ) (p : Obs)
    (km : ℚ) (h1 : candOk dist p [] tr1 = none) (h2 : candOk dist p [] tr2 = some km) :
    linkHour dist ([tr1, tr2], n) [p]
      = ([tr1, ⟨tr2.id, tr2.points ++ [obsToPoint tr2.id p]⟩], n) := by
  simp [linkHour, linkPoint, bestCandidate, bestGo, h1, h2, seedTracks]

/-- C1: an observation is linked to an open track only if the track is
unclaimed this hour, the time delta to the track's last point lies in
`[1800, 5400]` seconds and the distance is at most `200 km/h` scaled by the
elapsed hours; the selected track passes the gates with distance minimal
among all candidates; and on synthetic hourly data with one object moving at
a constant 50 km/h (one observation per hour, five consecutive hours, 50 km
between consecutive fixes) the linker produces exactly one track with 5
points sorted by increasing timestamp. -/
theorem claim1_linker_gates_min_synthetic :
    (∀ (dist : DistFn) (p : Obs) (used : List String) (tr : Track) (km : ℚ),
        candOk dist p used tr = some km →
        tr.id ∉ used ∧ ∃ last, tr.points.getLast? = some last ∧
          1800 ≤ p.ts - last.ts ∧ p.ts - last.ts ≤ 5400 ∧
          km = dist (last.lat, last.lon) (p.lat, p.lon) ∧
          km ≤ 200 * (((p.ts - last.ts : ℤ) : ℚ) / 3600)) ∧
    (∀ (dist : DistFn) (p : Obs) (used : List String) (tracks : List Track) (t : ℕ),
        bestCandidate dist p used tracks = some t →
        t < tracks.length ∧ ∃ km, candOk dist p used (tracks.getD t ⟨"", []⟩) = some km ∧
          ∀ j, j < tracks.length →
            ∀ kj, candOk dist p used (tracks.getD j ⟨"", []⟩) = some kj → km ≤ kj) ∧
    (∀ dist : DistFn,
        dist (0, 0) (0, Rat.divInt 9 20) = 50 →
        dist (0, Rat.divInt 9 20) (0, Rat.divInt 9 10) = 50 →
        dist (0, Rat.divInt 9 10) (0, Rat.divInt 27 20) = 50 →
        dist (0, Rat.divInt 27 20) (0, Rat.divInt 9 5) = 50 →
        linkTracks dist [[⟨14400, 0, Rat.divInt 9 5, none⟩],
            [⟨10800, 0, Rat.divInt 27 20, none⟩], [⟨7200, 0, Rat.divInt 9 10, none⟩],
            [⟨3600, 0, Rat.divInt 9 20, none⟩], [⟨0, 0, 0, none⟩]]
          = [⟨"T1", [⟨"T1", 0, 0, 0, none⟩, ⟨"T1", 3600, 0, Rat.divInt 9 20, none⟩,
              ⟨"T1", 7200, 0, Rat.divInt 9 10, none⟩, ⟨"T1", 10800, 0, Rat.divInt 27 20, none⟩,
              ⟨"T1", 14400, 0, Rat.divInt 9 5, none⟩]⟩]) := by
  refine ⟨?_, ?_, ?_⟩
  · intro dist p used tr km h
    obtain ⟨hu, last, hl, h1, h2, h3, h4⟩ := candOk_spec dist p used tr km h
    refine ⟨hu, last, hl, h1, h2, h3, ?_⟩
    rw [show (200 : ℚ) * (((p.ts - last.ts : ℤ) : ℚ) / 3600)
          = allowedKm (p.ts - last.ts) from (allowedKm_eq (p.ts - last.ts)).symm]
    exact h4
  · intro dist p used tracks t h
    exact bestCandidate_spec dist p used tracks t h
  · intro dist h01 h12 h23 h34
    have htn : trackName 1 = "T1" := by decide
    have step0 : linkHour dist ([], 1) [⟨0, 0, 0, none⟩]
        = ([⟨"T1", [⟨"T1", 0, 0, 0, none⟩]⟩], 2) := by
      rw [linkHour_seed_single, htn]
      rfl
    have hc1 : candOk dist ⟨3600, 0, Rat.divInt 9 20, none⟩ []
        ⟨"T1", [⟨"T1", 0, 0, 0, none⟩]⟩ = some (dist (0, 0) (0, Rat.divInt 9 20)) :=
      candOk_pass dist ⟨3600, 0, Rat.divInt 9 20, none⟩ []
        ⟨"T1", [⟨"T1", 0, 0, 0, none⟩]⟩ ⟨"T1", 0, 0, 0, none⟩ (by simp) rfl
        (by decide) (by decide) (by rw [show ((⟨"T1", 0, 0, 0, none⟩ : TrackPoint).lat,
          (⟨"T1", 0, 0, 0, none⟩ : TrackPoint).lon) = ((0 : ℚ), (0 : ℚ)) from rfl]; rw [h01]; decide)
    have step1 : linkHour dist ([⟨"T1", [⟨"T1", 0, 0, 0, none⟩]⟩], 2)
        [⟨3600, 0, Rat.divInt 9 20, none⟩]
        = ([⟨"T1", [⟨"T1", 0, 0, 0, none⟩, ⟨"T1", 3600, 0, Rat.divInt 9 20, none⟩]⟩], 2) := by
      rw [linkHour_single_match dist _ 2 _ _ hc1]
      rfl
    have hc2 : candOk dist ⟨7200, 0, Rat.divInt 9 10, none⟩ []
        ⟨"T1", [⟨"T1", 0, 0, 0, none⟩, ⟨"T1", 3600, 0, Rat.divInt 9 20, none⟩]⟩
        = some (dist (0, Rat.divInt 9 20) (0, Rat.divInt 9 10)) :=
      candOk_pass dist ⟨7200, 0, Rat.divInt 9 10, none⟩ [] _
        ⟨"T1", 3600, 0, Rat.divInt 9 20, none⟩ (by simp) rfl
        (by decide) (by decide) (by rw [show ((⟨"T1", 3600, 0, Rat.divInt 9 20, none⟩ : TrackPoint).lat,
          (⟨"T1", 3600, 0, Rat.divInt 9 20, none⟩ : TrackPoint).lon)
            = ((0 : ℚ), Rat.divInt 9 20) from rfl]; rw [h12]; decide)
    have step2 : linkHour dist
        ([⟨"T1", [⟨"T1", 0, 0, 0, none⟩, ⟨"T1", 3600, 0, Rat.divInt 9 20, none⟩]⟩], 2)
        [⟨7200, 0, Rat.divInt 9 10, none⟩]
        = ([⟨"T1", [⟨"T1", 0, 0, 0, none⟩, ⟨"T1", 3600, 0, Rat.divInt 9 20, none⟩,
            ⟨"T1", 7200, 0, Rat.divInt 9 10, none⟩]⟩], 2) := by
      rw [linkHour_single_match dist _ 2 _ _ hc2]
      rfl
    have hc3 : candOk dist ⟨10800, 0, Rat.divInt 27 20, none⟩ []
        ⟨"T1", [⟨"T1", 0, 0, 0, none⟩, ⟨"T1", 3600, 0, Rat.divInt 9 20, none⟩,
          ⟨"T1", 7200, 0, Rat.divInt 9 10, none⟩]⟩
        = some (dist (0, Rat.divInt 9 10) (0, Rat.divInt 27 20)) :=
      candOk_pass dist ⟨10800, 0, Rat.divInt 27 20, none⟩ [] _
        ⟨"T1", 7200, 0, Rat.divInt 9 10, none⟩ (by simp) rfl
        (by decide) (by decide) (by rw [show ((⟨"T1", 7200, 0, Rat.divInt 9 10, none⟩ : TrackPoint).lat,
          (⟨"T1", 7200, 0, Rat.divInt 9 10, none⟩ : TrackPoint).lon)
            = ((0 : ℚ), Rat.divInt 9 10) from rfl]; rw [h23]; decide)
    have step3 : linkHour dist
        ([⟨"T1", [⟨"T1", 0, 0, 0, none⟩, ⟨"T1", 3600, 0, Rat.divInt 9 20, none⟩,
          ⟨"T1", 7200, 0, Rat.divInt 9 10, none⟩]⟩], 2)
        [⟨10800, 0, Rat.divInt 27 20, none⟩]
        = ([⟨"T1", [⟨"T1", 0, 0, 0, none⟩, ⟨"T1", 3600, 0, Rat.divInt 9 20, none⟩,
            ⟨"T1", 7200, 0, Rat.divInt 9 10, none⟩, ⟨"T1", 10800, 0, Rat.divInt 27 20, none⟩]⟩], 2) := by
      rw [linkHour_single_match dist _ 2 _ _ hc3]
      rfl
    have hc4 : candOk dist ⟨14400, 0, Rat.divInt 9 5, none⟩ []
        ⟨"T1", [⟨"T1", 0, 0, 0, none⟩, ⟨"T1", 3600, 0, Rat.divInt 9 20, none⟩,
          ⟨"T1", 7200, 0, Rat.divInt 9 10, none⟩, ⟨"T1", 10800, 0, Rat.divInt 27 20, none⟩]⟩
        = some (dist (0, Rat.divInt 27 20) (0, Rat.divInt 9 5)) :=
      candOk_pass dist ⟨14400, 0, Rat.divInt 9 5, none⟩ [] _
        ⟨"T1", 10800, 0, Rat.divInt 27 20, none⟩ (by simp) rfl
        (by decide) (by decide) (by rw [show ((⟨"T1", 10800, 0, Rat.divInt 27 20, none⟩ : TrackPoint).lat,
          (⟨"T1", 10800, 0, Rat.divInt 27 20, none⟩ : TrackPoint).lon)
            = ((0 : ℚ), Rat.divInt 27 20) from rfl]; rw [h34]; decide)
    have step4 : linkHour dist
        ([⟨"T1", [⟨"T1", 0, 0, 0, none⟩, ⟨"T1", 3600, 0, Rat.divInt 9 20, none⟩,
          ⟨"T1", 7200, 0, Rat.divInt 9 10, none⟩, ⟨"T1", 10800, 0, Rat.divInt 27 20, none⟩]⟩], 2)
        [⟨14400, 0, Rat.divInt 9 5, none⟩]
        = ([⟨"T1", [⟨"T1", 0, 0, 0, none⟩, ⟨"T1", 3600, 0, Rat.divInt 9 20, none⟩,
            ⟨"T1", 7200, 0, Rat.divInt 9 10, none⟩, ⟨"T1", 10800, 0, Rat.divInt 27 20, none⟩,
            ⟨"T1", 14400, 0, Rat.divInt 9 5, none⟩]⟩], 2) := by
      rw [linkHour_single_match dist _ 2 _ _ hc4]
      rfl
    unfold linkTracks
    rw [show ([[⟨14400, 0, Rat.divInt 9 5, none⟩], [⟨10800, 0, Rat.divInt 27 20, none⟩],
        [⟨7200, 0, Rat.divInt 9 10, none⟩], [⟨3600, 0, Rat.divInt 9 20, none⟩],
        [⟨0, 0, 0, none⟩]] : List (List Obs)).reverse
      = [[⟨0, 0, 0, none⟩], [⟨3600, 0, Rat.divInt 9 20, none⟩], [⟨7200, 0, Rat.divInt 9 10, none⟩],
         [⟨10800, 0, Rat.divInt 27 20, none⟩], [⟨14400, 0, Rat.divInt 9 5, none⟩]] from rfl]
    simp only [List.foldl_cons, List.foldl_nil]
    rw [step0, step1, step2, step3, step4]
    decide

/-- Witness for C1: the synthetic five-hour run with the constant-50 km
distance function. -/
theorem claim1_witness :
    linkTracks (fun _ _ => 50) [[⟨14400, 0, Rat.divInt 9 5, none⟩],
        [⟨10800, 0, Rat.divInt 27 20, none⟩], [⟨7200, 0, Rat.divInt 9 10, none⟩],
        [⟨3600, 0, Rat.divInt 9 20, none⟩], [⟨0, 0, 0, none⟩]]
      = [⟨"T1", [⟨"T1", 0, 0, 0, none⟩, ⟨"T1", 3600, 0, Rat.divInt 9 20, none⟩,
          ⟨"T1", 7200, 0, Rat.divInt 9 10, none⟩, ⟨"T1", 10800, 0, Rat.divInt 27 20, none⟩,
          ⟨"T1", 14400, 0, Rat.divInt 9 5, none⟩]⟩] :=
  claim1_linker_gates_min_synthetic.2.2 (fun _ _ => 50) rfl rfl rfl rfl

/-- C4: an elapsed time of 7200 seconds (one missing hour) always fails the
`[1800, 5400]` gate, so the gap is never bridged; concretely, observations at
matching geography before and after a gap hour produce two tracks — the
original track ends at the pre-gap point and a new track starts at the
post-gap observation. -/
theorem claim4_gap_terminates_track :
    (∀ (dist : DistFn) (p : Obs) (used : List String) (tr : Track) (last : TrackPoint),
        tr.points.getLast? = some last → p.ts - last.ts = 7200 →
        candOk dist p used tr = none) ∧
    (∀ dist : DistFn, dist (0, 0) (0, 0) = 0 →
        linkTracks dist [[⟨15400, 0, 0, none⟩], [⟨11800, 0, 0, none⟩], [],
            [⟨4600, 0, 0, none⟩], [⟨1000, 0, 0, none⟩]]
          = [⟨"T1", [⟨"T1", 1000, 0, 0, none⟩, ⟨"T1", 4600, 0, 0, none⟩]⟩,
             ⟨"T2", [⟨"T2", 11800, 0, 0, none⟩, ⟨"T2", 15400, 0, 0, none⟩]⟩]) := by
  constructor
  · intro dist p used tr last hl hdt
    exact candOk_dt_fail dist p used tr last hl (Or.inr (by omega))
  · intro dist h00
    have htn1 : trackName 1 = "T1" := by decide
    have htn2 : trackName 2 = "T2" := by decide
    have step0 : linkHour dist ([], 1) [⟨1000, 0, 0, none⟩]
        = ([⟨"T1", [⟨"T1", 1000, 0, 0, none⟩]⟩], 2) := by
      rw [linkHour_seed_single, htn1]
      rfl
    have hcA : candOk dist ⟨4600, 0, 0, none⟩ [] ⟨"T1", [⟨"T1", 1000, 0, 0, none⟩]⟩
        = some (dist (0, 0) (0, 0)) :=
      candOk_pass dist ⟨4600, 0, 0, none⟩ [] ⟨"T1", [⟨"T1", 1000, 0, 0, none⟩]⟩
        ⟨"T1", 1000, 0, 0, none⟩ (by simp) rfl (by decide) (by decide)
        (by rw [show ((⟨"T1", 1000, 0, 0, none⟩ : TrackPoint).lat,
          (⟨"T1", 1000, 0, 0, none⟩ : TrackPoint).lon) = ((0 : ℚ), (0 : ℚ)) from rfl]
            rw [h00]; decide)
    have step1 : linkHour dist ([⟨"T1", [⟨"T1", 1000, 0, 0, none⟩]⟩], 2) [⟨4600, 0, 0, none⟩]
        = ([⟨"T1", [⟨"T1", 1000, 0, 0, none⟩, ⟨"T1", 4600, 0, 0, none⟩]⟩], 2) := by
      rw [linkHour_single_match dist _ 2 _ _ hcA]
      rfl
    have hcB : candOk dist ⟨11800, 0, 0, none⟩ []
        ⟨"T1", [⟨"T1", 1000, 0, 0, none⟩, ⟨"T1", 4600, 0, 0, none⟩]⟩ = none :=
      candOk_dt_fail dist ⟨11800, 0, 0, none⟩ [] _ ⟨"T1", 4600, 0, 0, none⟩ rfl
        (Or.inr (by decide))
    have step3 : linkHour dist
        ([⟨"T1", [⟨"T1", 1000, 0, 0, none⟩, ⟨"T1", 4600, 0, 0, none⟩]⟩], 2)
        [⟨11800, 0, 0, none⟩]
        = ([⟨"T1", [⟨"T1", 1000, 0, 0, none⟩, ⟨"T1", 4600, 0, 0, none⟩]⟩,
            ⟨"T2", [⟨"T2", 11800, 0, 0, none⟩]⟩], 3) := by
      rw [linkHour_single_nomatch dist _ 2 _ hcB, htn2]
      rfl
    have hcC : candOk dist ⟨15400, 0, 0, none⟩ []
        ⟨"T1", [⟨"T1", 1000, 0, 0, none⟩, ⟨"T1", 4600, 0, 0, none⟩]⟩ = none :=
      candOk_dt_fail dist ⟨15400, 0, 0, none⟩ [] _ ⟨"T1", 4600, 0, 0, none⟩ rfl
        (Or.inr (by decide))
    have hcD : candOk dist ⟨15400, 0, 0, none⟩ [] ⟨"T2", [⟨"T2", 11800, 0, 0, none⟩]⟩
        = some (dist (0, 0) (0, 0)) :=
      candOk_pass dist ⟨15400, 0, 0, none⟩ [] ⟨"T2", [⟨"T2", 11800, 0, 0, none⟩]⟩
        ⟨"T2", 11800, 0, 0, none⟩ (by simp) rfl (by decide) (by decide)
        (by rw [show ((⟨"T2", 11800, 0, 0, none⟩ : TrackPoint).lat,
          (⟨"T2", 11800, 0, 0, none⟩ : TrackPoint).lon) = ((0 : ℚ), (0 : ℚ)) from rfl]
            rw [h00]; decide)
    have step4 : linkHour dist
        ([⟨"T1", [⟨"T1", 1000, 0, 0, none⟩, ⟨"T1", 4600, 0, 0, none⟩]⟩,
          ⟨"T2", [⟨"T2", 11800, 0, 0, none⟩]⟩], 3)
        [⟨15400, 0, 0, none⟩]
        = ([⟨"T1", [⟨"T1", 1000, 0, 0, none⟩, ⟨"T1", 4600, 0, 0, none⟩]⟩,
            ⟨"T2", [⟨"T2", 11800, 0, 0, none⟩, ⟨"T2", 15400, 0, 0, none⟩]⟩], 3) := by
      rw [linkHour_two_secondmatch dist _ _ 3 _ _ hcC hcD]
      rfl
    unfold linkTracks
    rw [show ([[⟨15400, 0, 0, none⟩], [⟨11800, 0, 0, none⟩], [], [⟨4600, 0, 0, none⟩],
        [⟨1000, 0, 0, none⟩]] : List (List Obs)).reverse
      = [[⟨1000, 0, 0, none⟩], [⟨4600, 0, 0, none⟩], [], [⟨11800, 0, 0, none⟩],
         [⟨15400, 0, 0, none⟩]] from rfl]
    simp only [List.foldl_cons, List.foldl_nil]
    rw [step0, step1, linkHour_nil, step3, step4]
    decide

/-- Witness for C4: the gap scenario with the identically-zero distance
function. -/
theorem claim4_witness :
    linkTracks (fun _ _ => 0) [[⟨15400, 0, 0, none⟩], [⟨11800, 0, 0, none⟩], [],
        [⟨4600, 0, 0, none⟩], [⟨1000, 0, 0, none⟩]]
      = [⟨"T1", [⟨"T1", 1000, 0, 0, none⟩, ⟨"T1", 4600, 0, 0, none⟩]⟩,
         ⟨"T2", [⟨"T2", 11800, 0, 0, none⟩, ⟨"T2", 15400, 0, 0, none⟩]⟩] :=
  claim4_gap_terminates_track.2 (fun _ _ => 0) rfl

theorem seedTracks_ok : ∀ (pts : List Obs) (st : List Track × ℕ),
    (∀ tr ∈ st.1, TrackOk tr) → ∀ tr ∈ (seedTracks st pts).1, TrackOk tr := by
  intro pts
  induction pts with
  | nil => intro st h; exact h
  | cons p rest ih =>
    intro st h
    show ∀ tr ∈ (seedTracks (st.1 ++ [⟨trackName st.2, [obsToPoint (trackName st.2) p]⟩],
        st.2 + 1) rest).1, TrackOk tr
    apply ih
    intro tr htr
    rcases List.mem_append.mp htr with htr | htr
    · exact h tr htr
    · have : tr = ⟨trackName st.2, [obsToPoint (trackName st.2) p]⟩ := by simpa using htr
      subst this
      exact ⟨by simp, by simp⟩

theorem linkPoint_ok (dist : DistFn) (st : List Track × List String × List Obs) (p : Obs)
    (h : ∀ tr ∈ st.1, TrackOk tr) : ∀ tr ∈ (linkPoint dist st p).1, TrackOk tr := by
  obtain ⟨tracks, used, leftover⟩ := st
  cases hb : bestCandidate dist p used tracks with
  | none =>
    simp only [linkPoint, hb]
    exact h
  | some t =>
    simp only [linkPoint, hb]
    intro tr htr
    replace htr : tr ∈ tracks.set t ⟨(tracks.getD t ⟨"", []⟩).id,
        (tracks.getD t ⟨"", []⟩).points
          ++ [obsToPoint (tracks.getD t ⟨"", []⟩).id p]⟩ := htr
    obtain ⟨hlen, km, hcand, _⟩ := bestCandidate_spec dist p used tracks t hb
    rcases List.mem_or_eq_of_mem_set htr with hmem | heqtr
    · exact h tr hmem
    · obtain ⟨_, last, hlast, h1, _, _, _⟩ := candOk_spec dist p used _ km hcand
      have hold : TrackOk (tracks.getD t ⟨"", []⟩) := by
        apply h
        rw [List.getD_eq_getElem _ _ hlen]
        exact List.getElem_mem hlen
      subst heqtr
      refine ⟨by simp, ?_⟩
      show ((tracks.getD t ⟨"", []⟩).points
          ++ [obsToPoint (tracks.getD t ⟨"", []⟩).id p]).Chain' _
      rw [List.chain'_append]
      refine ⟨hold.2, by simp, ?_⟩
      intro x hx y hy
      simp only [List.head?_cons, Option.mem_def, Option.some_inj] at hy
      rw [hlast] at hx
      simp only [Option.mem_def, Option.some_inj] at hx
      have hgoal : x.ts + 1800 ≤ p.ts := by
        rw [← hx]
        omega
      rw [← hy]
      exact hgoal

theorem linkPoints_ok (dist : DistFn) :
    ∀ (pts : List Obs) (st : List Track × List String × List Obs),
      (∀ tr ∈ st.1, TrackOk tr) →
      ∀ tr ∈ (pts.foldl (linkPoint dist) st).1, TrackOk tr := by
  intro pts
  induction pts with
  | nil => intro st h; exact h
  | cons p rest ih =>
    intro st h
    rw [List.foldl_cons]
    exact ih (linkPoint dist st p) (linkPoint_ok dist st p h)

theorem linkHour_ok (dist : DistFn) (st : List Track × ℕ) (pts : List Obs)
    (h : ∀ tr ∈ st.1, TrackOk tr) : ∀ tr ∈ (linkHour dist st pts).1, TrackOk tr := by
  unfold linkHour
  split_ifs with hempty htracks
  · exact h
  · exact seedTracks_ok pts st h
  · rcases hfold : pts.foldl (linkPoint dist) (st.1, [], []) with ⟨tracks2, used2, leftover⟩
    simp only [hfold]
    apply seedTracks_ok
    intro tr htr
    have := linkPoints_ok dist pts (st.1, [], []) h
    rw [hfold] at this
    exact this tr htr

theorem linkFold_ok (dist : DistFn) :
    ∀ (hours : List (List Obs)) (st : List Track × ℕ),
      (∀ tr ∈ st.1, TrackOk tr) →
      ∀ tr ∈ (hours.foldl (linkHour dist) st).1, TrackOk tr := by
  intro hours
  induction hours with
  | nil => intro st h; exact h
  | cons hh rest ih =>
    intro st h
    rw [List.foldl_cons]
    exact ih (linkHour dist st hh) (linkHour_ok dist st hh h)

/-- The dedupe pass yields a sublist of its input. -/
theorem dedupeGo_sublist : ∀ (l : List TrackPoint) (seen : List (String × ℤ × ℤ × ℤ)),
    List.Sublist (dedupeGo l seen) l := by
  intro l
  induction l with
  | nil => intro seen; simp [dedupeGo]
  | cons p rest ih =>
    intro seen
    unfold dedupeGo
    split_ifs
    · exact (ih seen).cons p
    · exact (ih (pointKey p :: seen)).cons₂ p

/-- Inserting below every element of a sorted list puts the new point in
front. -/
theorem insertByTs_front (p : TrackPoint) (l : List TrackPoint)
    (h : ∀ q ∈ l.head?, p.ts < q.ts) : insertByTs p l = p :: l := by
  cases l with
  | nil => rfl
  | cons q rest =>
    have : p.ts < q.ts := h q rfl
    unfold insertByTs
    rw [if_neg (by omega)]

/-- Sorting a strictly-ascending list leaves it unchanged. -/
theorem sortByTs_sorted_id : ∀ l : List TrackPoint,
    l.Chain' (fun a b => a.ts < b.ts) → sortByTs l = l := by
  intro l
  induction l with
  | nil => intro _; rfl
  | cons a rest ih =>
    intro h
    show insertByTs a (sortByTs rest) = a :: rest
    rw [ih h.tail, insertByTs_front]
    intro q hq
    cases rest with
    | nil => simp at hq
    | cons b r2 =>
      have hb : b = q := by simpa using hq
      rw [← hb]
      exact (List.chain'_cons.mp h).1

/-- C3: every track exposed by a reconstruction run has its points strictly
ascending by timestamp, deduplicated (no two points share the
`(id, ts, lat-rounded, lon-rounded)` key), and at least 2 points.  (Finiteness
of every coordinate and timestamp holds by construction in this
exact-arithmetic embedding; the source's `dedupeAndSort` discards any
non-finite point before this stage.) -/
theorem claim3_track_invariants (dist : DistFn) (hourly : List (List Obs)) (tr : Track)
    (h : tr ∈ linkTracks dist hourly) :
    tr.points.Chain' (fun a b => a.ts < b.ts) ∧
    tr.points.Pairwise (fun a b => pointKey a ≠ pointKey b) ∧
    2 ≤ tr.points.length := by
  unfold linkTracks at h
  obtain ⟨hmem, hlen⟩ := List.mem_filter.mp h
  obtain ⟨tr0, htr0, heq⟩ := List.mem_map.mp hmem
  have hok : TrackOk tr0 := linkFold_ok dist hourly.reverse ([], 1) (by simp) tr0 htr0
  haveI : IsTrans TrackPoint (fun a b => a.ts < b.ts) :=
    ⟨fun a b c h1 h2 => lt_trans h1 h2⟩
  have hchain0 : tr0.points.Chain' (fun a b => a.ts < b.ts) :=
    hok.2.imp fun {a b} hab => by omega
  have hpw0 : tr0.points.Pairwise (fun a b => a.ts < b.ts) :=
    List.chain'_iff_pairwise.mp hchain0
  have hpwD : (dedupeGo tr0.points []).Pairwise (fun a b => a.ts < b.ts) :=
    hpw0.sublist (dedupeGo_sublist tr0.points [])
  have hchainD : (dedupeGo tr0.points []).Chain' (fun a b => a.ts < b.ts) :=
    List.chain'_iff_pairwise.mpr hpwD
  have hpts : tr.points = dedupeGo tr0.points [] := by
    rw [← heq]
    show dedupeAndSort tr0.points = _
    unfold dedupeAndSort
    exact sortByTs_sorted_id _ hchainD
  refine ⟨hpts ▸ hchainD, ?_, by simpa using hlen⟩
  rw [hpts]
  refine hpwD.imp ?_
  intro a b hab hkey
  have : a.ts = b.ts := congrArg (fun k => k.2.1) hkey
  omega

/-- Witness for C3 on a concrete two-hour reconstruction. -/
theorem claim3_witness :
    (⟨"T1", [⟨"T1", 1000, 0, 0, none⟩, ⟨"T1", 4600, 0, 0, none⟩]⟩ : Track).points.Chain'
        (fun a b => a.ts < b.ts) ∧
    (⟨"T1", [⟨"T1", 1000, 0, 0, none⟩, ⟨"T1", 4600, 0, 0, none⟩]⟩ : Track).points.Pairwise
        (fun a b => pointKey a ≠ pointKey b) ∧
    2 ≤ (⟨"T1", [⟨"T1", 1000, 0, 0, none⟩, ⟨"T1", 4600, 0, 0, none⟩]⟩ : Track).points.length :=
  claim3_track_invariants (fun _ _ => 0) [[⟨4600, 0, 0, none⟩], [⟨1000, 0, 0, none⟩]]
    ⟨"T1", [⟨"T1", 1000, 0, 0, none⟩, ⟨"T1", 4600, 0, 0, none⟩]⟩ (by decide)

